import Mathlib

/-!
# mars_core: the registry of simulated motors, and parts of the node manager

A shallow embedding of `src/src/MotorManager.cpp`, followed by the functions of
`src/src/NodeManager.cpp` on collision objects, data broker names and the moving
of dynamic objects, and by the handler table declared in
`src/src/CollisionManager.hpp`.  For `MotorManager`:

* The registry is the four data members the member functions read and write:
  `simMotors`, `mimicmotors`, `simMotorsReload` and `next_motor_id`.
  A member function becomes a function from the registry before the call to
  the registry after it (together with what it returns).
* `std::map<unsigned long, T>` is a list of key/value pairs that the operations
  keep in strictly ascending key order; iteration from `begin()` to `end()` is
  iteration over the list.
* `unsigned long` ids and the `int` motor count are natural numbers.  The id
  counter is not wrapped: it is incremented once per `addMotor` call starting
  from 1, so that a wrap would take `2^64` calls between two clears.
* `simMotors` holds the motors themselves, for the pointers the C++ map owns.
  A null pointer is not a value of the model; the one statement that could
  store one is `simMotors[it->first]` in `connectMimics`, which therefore
  returns an `Option`.
* Calls that the registry makes on a motor are kept in the motor (`calls`);
  the two loops over motors also list the calls they issue, in order.
* `iMutex` is not part of the state: a single caller is modelled.  The
  `sceneHasChanged` notifications go to `control->sim`, outside the registry.
-/

namespace MarsCore

/-- Stand-in for `sReal` (a C++ `double`).  The registry only carries such
values from a configuration to a motor, it never computes on them. -/
abbrev sReal := Rat

/-- A `configmaps::ConfigItem`, given by what `MotorManager.cpp` reads from it:
its conversion to `std::string`, its conversion to `sReal`, and the sequence of
`(double)(*vIt)` for `vIt` running from `begin()` to `end()`. -/
structure ConfigItem where
  asString : String
  asReal : sReal
  elements : List sReal
deriving DecidableEq, Repr

/-- The item that `operator[]` creates for a key that is absent. -/
def ConfigItem.empty : ConfigItem :=
  { asString := "", asReal := 0, elements := [] }

/-- A `configmaps::ConfigMap`: keys with their items, in insertion order. -/
abbrev ConfigMap := List (String × ConfigItem)

/-- The test `config.find(key) != config.end()`. -/
def ConfigMap.has (config : ConfigMap) (key : String) : Bool :=
  (config.lookup key).isSome

/-- The expression `config[key]`: the item stored under `key` and the map after
the access.  As for `std::map`, an absent key is inserted with an empty item. -/
def ConfigMap.subscript (config : ConfigMap) (key : String) : ConfigItem × ConfigMap :=
  match config.lookup key with
  | some item => (item, config)
  | none => (ConfigItem.empty, config ++ [(key, ConfigItem.empty)])

/-- The assignment `config[key] = item`. -/
def ConfigMap.assign (config : ConfigMap) (key : String) (item : ConfigItem) : ConfigMap :=
  if ConfigMap.has config key then
    config.map (fun e => if e.1 = key then (key, item) else e)
  else config ++ [(key, item)]

/-- The fields of `interfaces::MotorData` that `MotorManager.cpp` uses. -/
structure MotorData where
  name : String
  index : Nat
  jointIndex : Nat
  config : ConfigMap
deriving DecidableEq, Repr

/-! ## `std::map<unsigned long, V>` -/

namespace StdMap

/-- The keys in iteration order. -/
def keys {V : Type} (m : List (Nat × V)) : List Nat :=
  m.map Prod.fst

/-- The lookup `m.find(k)`: `none` stands for `m.end()`. -/
def find {V : Type} : List (Nat × V) → Nat → Option V
  | [], _ => none
  | (k0, v0) :: rest, k => if k0 = k then some v0 else find rest k

/-- The assignment `m[k] = v`: replaces the value stored under `k`, or inserts
the pair at its place in the key order. -/
def assign {V : Type} : List (Nat × V) → Nat → V → List (Nat × V)
  | [], k, v => [(k, v)]
  | (k0, v0) :: rest, k, v =>
    if k < k0 then (k, v) :: (k0, v0) :: rest
    else if k = k0 then (k, v) :: rest
    else (k0, v0) :: assign rest k v

/-- The removal `m.erase(k)`. -/
def erase {V : Type} (m : List (Nat × V)) (k : Nat) : List (Nat × V) :=
  m.filter (fun e => decide (e.1 ≠ k))

/-- A member call through the pointer stored under `k`: the object is replaced
by its state after the call, the keys are untouched. -/
def update {V : Type} (m : List (Nat × V)) (k : Nat) (f : V → V) : List (Nat × V) :=
  m.map (fun e => if e.1 = k then (e.1, f e.2) else e)

/-- Strictly ascending keys, the order `std::map` iterates in. -/
def Ordered {V : Type} (m : List (Nat × V)) : Prop :=
  (keys m).Pairwise (fun a b => a < b)

end StdMap

/-! ## `SimMotor` -/

/-- The member calls that `MotorManager.cpp` makes on a `SimMotor`.  An
approximation function is named by the string from which
`getApproximationFunctionFromString` selects it; the coefficient vector is the
content, at the time of the call, of the vector whose address is passed; the
child of `addMimic` is named by its key in `simMotors`. -/
inductive MotorCall where
  | setMimic (multiplier offset : sReal)
  | setMaxEffortApproximation (kind : String) (coefficients : List sReal)
  | setMaxSpeedApproximation (kind : String) (coefficients : List sReal)
  | setCurrentApproximation (kind : String) (coefficients : List sReal)
  | addMimic (child : Nat)
  | setControlValue (value : sReal)
  | setVelocity (velocity : sReal)
  | setP (value : sReal)
  | setI (value : sReal)
  | setD (value : sReal)
  | deactivate
  | setMaxEffort (maxTorque : sReal)
  | setMaxSpeed (maxSpeed : sReal)
  | setOfflinePosition (pos : sReal)
  | edit (key value : String)
  | update (calc_ms : sReal)
deriving DecidableEq, Repr

/-- Whether the call is a `setMimic`. -/
def MotorCall.isSetMimic : MotorCall → Bool
  | MotorCall.setMimic _ _ => true
  | _ => false

/-- The arguments of the call when it is a `setMaxEffortApproximation`. -/
def MotorCall.maxEffortApproximation : MotorCall → Option (String × List sReal)
  | MotorCall.setMaxEffortApproximation kind coefficients => some (kind, coefficients)
  | _ => none

/-- The arguments of the call when it is a `setMaxSpeedApproximation`. -/
def MotorCall.maxSpeedApproximation : MotorCall → Option (String × List sReal)
  | MotorCall.setMaxSpeedApproximation kind coefficients => some (kind, coefficients)
  | _ => none

/-- The arguments of the call when it is a `setCurrentApproximation`. -/
def MotorCall.currentApproximation : MotorCall → Option (String × List sReal)
  | MotorCall.setCurrentApproximation kind coefficients => some (kind, coefficients)
  | _ => none

/-- Modelled from the spec: the class `SimMotor` (`SimMotor.hpp`, `SimMotor.cpp`),
which is not among the sources.  An actuator has an identity (id and name, held
in its `MotorData` record) and a reference to the joint it drives; what the
member calls of the registry do to it is kept as the sequence of the calls it
received. -/
structure SimMotor where
  sMotor : MotorData
  joint : Nat
  calls : List MotorCall
deriving DecidableEq, Repr

namespace SimMotor

/-- The constructor `SimMotor(control, sMotor, joint)`. -/
def new (sMotor : MotorData) (joint : Nat) : SimMotor :=
  { sMotor := sMotor, joint := joint, calls := [] }

/-- The setter `setSMotor`. -/
def setSMotor (m : SimMotor) (sMotor : MotorData) : SimMotor :=
  { m with sMotor := sMotor }

/-- The getter `getSMotor`. -/
def getSMotor (m : SimMotor) : MotorData := m.sMotor

/-- The getter `getIndex`. -/
def getIndex (m : SimMotor) : Nat := m.sMotor.index

/-- The getter `getName`. -/
def getName (m : SimMotor) : String := m.sMotor.name

/-- A configuring member call received by the motor. -/
def call (m : SimMotor) (c : MotorCall) : SimMotor :=
  { m with calls := m.calls ++ [c] }

/-- The motor after it has received the calls `cs`, in order. -/
def receive (m : SimMotor) (cs : List MotorCall) : SimMotor :=
  { m with calls := m.calls ++ cs }

/-- Modelled from the spec: the max-effort approximation installed on the motor
(`setMaxEffortApproximation(kind, coefficients)` "installs a clamp function"):
the function and coefficients of the last such call received, if any. -/
def installedMaxEffort (m : SimMotor) : Option (String × List sReal) :=
  (m.calls.filterMap MotorCall.maxEffortApproximation).getLast?

/-- Modelled from the spec: the max-speed approximation installed on the motor,
that of the last `setMaxSpeedApproximation` received, if any. -/
def installedMaxSpeed (m : SimMotor) : Option (String × List sReal) :=
  (m.calls.filterMap MotorCall.maxSpeedApproximation).getLast?

/-- Modelled from the spec: the current approximation installed on the motor,
that of the last `setCurrentApproximation` received, if any. -/
def installedCurrent (m : SimMotor) : Option (String × List sReal) :=
  (m.calls.filterMap MotorCall.currentApproximation).getLast?

end SimMotor

/-! ## `MotorManager` -/

/-- The data members of `MotorManager`. -/
structure MotorManager where
  simMotors : List (Nat × SimMotor)
  mimicmotors : List (Nat × String)
  simMotorsReload : List MotorData
  next_motor_id : Nat
deriving DecidableEq, Repr

/-- What `addMotor` hands back: the value returned, the record `*motorS` as the
call leaves it, and the registry after the call. -/
structure AddMotorResult where
  ret : Nat
  motorS : MotorData
  mgr : MotorManager
deriving DecidableEq, Repr

namespace MotorManager

/-- The constructor `MotorManager::MotorManager` (lines 36-40). -/
def fresh : MotorManager :=
  { simMotors := [], mimicmotors := [], simMotorsReload := [], next_motor_id := 1 }

/-- Lines 82-88 of `addMotor`, "set motor mimics": the configuration after the
accesses, `mimicmotors` and the new motor. -/
def setMotorMimics (index : Nat) (config : ConfigMap) (mimicmotors : List (Nat × String))
    (newMotor : SimMotor) : ConfigMap × List (Nat × String) × SimMotor :=
  if ConfigMap.has config "mimic_motor" then
    let parent := ConfigMap.subscript config "mimic_motor"
    let multiplier := ConfigMap.subscript parent.2 "mimic_multiplier"
    let offset := ConfigMap.subscript multiplier.2 "mimic_offset"
    (offset.2, StdMap.assign mimicmotors index parent.1.asString,
      newMotor.call (MotorCall.setMimic multiplier.1.asReal offset.1.asReal))
  else (config, mimicmotors, newMotor)

/-- One of the three blocks of lines 90-126 of `addMotor`, "set approximation
functions": when `kindKey` is configured, every element of `config[coeffKey]` is
pushed on a new vector and the setter `setter` is called, inside the loop, with
the function named by `config[kindKey]` and that vector. -/
def setApproximation (setter : String → List sReal → MotorCall) (kindKey coeffKey : String)
    (config : ConfigMap) (newMotor : SimMotor) : ConfigMap × SimMotor :=
  if ConfigMap.has config kindKey then
    let coeffs := ConfigMap.subscript config coeffKey
    let kind := (ConfigMap.subscript coeffs.2 kindKey).1.asString
    let loop := coeffs.1.elements.foldl
      (fun (acc : List sReal × SimMotor) (x : sReal) =>
        (acc.1 ++ [x], acc.2.call (setter kind (acc.1 ++ [x]))))
      (([] : List sReal), newMotor)
    (coeffs.2, loop.2)
  else (config, newMotor)

/-- The member function `addMotor` (lines 53-129).  The map stores a pointer to
the new motor, so the configuring calls made after the insertion act on the
stored motor: the entry written under `newMotor->getIndex()` is the motor as
the function leaves it. -/
def addMotor (s : MotorManager) (motorS : MotorData) (reload : Bool) : AddMotorResult :=
  -- motorS->index = next_motor_id; next_motor_id++;
  let motorS1 : MotorData := { motorS with index := s.next_motor_id }
  let next := s.next_motor_id + 1
  -- if (!reload) simMotorsReload.push_back(*motorS);
  let pool := if reload then s.simMotorsReload else s.simMotorsReload ++ [motorS1]
  -- new SimMotor(control, *motorS, joint); newMotor->setSMotor(*motorS);
  let newMotor := (SimMotor.new motorS1 motorS1.jointIndex).setSMotor motorS1
  let key := newMotor.getIndex
  -- mimic and approximation configuration, read from motorS->config
  let mimic := setMotorMimics motorS1.index motorS1.config s.mimicmotors newMotor
  let effort := setApproximation MotorCall.setMaxEffortApproximation
    "maxeffort_approximation" "maxeffort_coefficients" mimic.1 mimic.2.2
  let speed := setApproximation MotorCall.setMaxSpeedApproximation
    "maxspeed_approximation" "maxspeed_coefficients" effort.1 effort.2
  let current := setApproximation MotorCall.setCurrentApproximation
    "current_approximation" "current_coefficients" speed.1 speed.2
  -- return motorS->index;
  { ret := motorS1.index,
    motorS := { motorS1 with config := current.1 },
    mgr :=
      { simMotors := StdMap.assign s.simMotors key current.2,
        mimicmotors := mimic.2.1,
        simMotorsReload := pool,
        next_motor_id := next } }

/-- The member function `getMotorCount` (lines 137-141). -/
def getMotorCount (s : MotorManager) : Nat :=
  s.simMotors.length

/-- The member function `editMotor` (lines 154-160). -/
def editMotor (s : MotorManager) (motorS : MotorData) : MotorManager :=
  match StdMap.find s.simMotors motorS.index with
  | some _ =>
    { s with simMotors :=
        StdMap.update s.simMotors motorS.index (fun m => m.setSMotor motorS) }
  | none => s

/-- The member function `getFullMotor` (lines 193-205): the record of the motor,
or the `std::runtime_error` with its message.  It is a `const` member function
of the registry, a function of the state alone. -/
def getFullMotor (s : MotorManager) (index : Nat) : Except String MotorData :=
  match StdMap.find s.simMotors index with
  | some m => Except.ok m.getSMotor
  | none => Except.error ("could not find motor with index: " ++ toString index)

/-- The member function `removeMotor` (lines 213-233). -/
def removeMotor (s : MotorManager) (index : Nat) : MotorManager :=
  let motors :=
    match StdMap.find s.simMotors index with
    | some _ => StdMap.erase s.simMotors index
    | none => s.simMotors
  { s with simMotors := motors, mimicmotors := StdMap.erase s.mimicmotors index }

/-- The member function `getSimMotor` (lines 248-256): `none` is `NULL`. -/
def getSimMotor (s : MotorManager) (id : Nat) : Option SimMotor :=
  StdMap.find s.simMotors id

/-- The loop of `getSimMotorByName` (lines 275-279), on the map itself: the
first entry, in key order, whose motor has the name. -/
def findByName (motors : List (Nat × SimMotor)) (name : String) : Option (Nat × SimMotor) :=
  motors.find? (fun e => decide (e.2.getName = name))

/-- The member function `getSimMotorByName` (lines 272-280): `none` is `NULL`. -/
def getSimMotorByName (s : MotorManager) (name : String) : Option SimMotor :=
  (findByName s.simMotors name).map Prod.snd

/-- The member function `getID` (lines 394-405). -/
def getID (s : MotorManager) (name : String) : Nat :=
  match s.simMotors.find? (fun e => decide (e.2.getName = name)) with
  | some e => e.1
  | none => 0

/-- The member function `clearAllMotors` (lines 437-447). -/
def clearAllMotors (s : MotorManager) (clear_all : Bool) : MotorManager :=
  { simMotors := [],
    mimicmotors := [],
    simMotorsReload := if clear_all then [] else s.simMotorsReload,
    next_motor_id := 1 }

/-- One pass through the body of the loop of `connectMimics` (lines 556-558),
for the entry `it` of `mimicmotors`: the motors after it and the member call
issued, as the key of the motor called and the call.  `simMotors[it->first]`
is evaluated only when a parent was found; for a key that `simMotors` does not
have, `operator[]` stores a null pointer under it, a map that is not a value of
this model: the result is then `none`. -/
def connectMimicsStep (motors : List (Nat × SimMotor)) (it : Nat × String) :
    Option (List (Nat × SimMotor) × List (Nat × MotorCall)) :=
  match findByName motors it.2 with
  | none => some (motors, [])
  | some parentmotor =>
    match StdMap.find motors it.1 with
    | some _ =>
      some (StdMap.update motors parentmotor.1 (fun m => m.call (MotorCall.addMimic it.1)),
        [(parentmotor.1, MotorCall.addMimic it.1)])
    | none => none

/-- The loop of `connectMimics` (lines 554-559) over the entries of
`mimicmotors` that remain: the motors after it and the calls issued, in
order. -/
def connectMimicsLoop : List (Nat × String) → List (Nat × SimMotor) →
    Option (List (Nat × SimMotor) × List (Nat × MotorCall))
  | [], motors => some (motors, [])
  | it :: rest, motors =>
    match connectMimicsStep motors it with
    | none => none
    | some r1 =>
      match connectMimicsLoop rest r1.1 with
      | none => none
      | some r2 => some (r2.1, r1.2 ++ r2.2)

/-- The member function `connectMimics` (lines 551-560). -/
def connectMimics (s : MotorManager) : Option MotorManager :=
  (connectMimicsLoop s.mimicmotors s.simMotors).map
    (fun r => { s with simMotors := r.1 })

/-- The member calls that `connectMimics` issues, in order, each with the key of
the motor that receives it. -/
def connectMimicsIssued (s : MotorManager) : Option (List (Nat × MotorCall)) :=
  (connectMimicsLoop s.mimicmotors s.simMotors).map Prod.snd

/-- The member function `reloadMotors` (lines 456-468).  The body of its loop
over `simMotorsReload` holds only the two mutex calls, the `addMotor` call
being commented out; `connectMimics` follows the loop. -/
def reloadMotors (s : MotorManager) : Option MotorManager :=
  connectMimics (s.simMotorsReload.foldl (fun (acc : MotorManager) (_ : MotorData) => acc) s)

/-- The pattern `iter = simMotors.find(id); if (iter != simMotors.end())
iter->second->call(...)` shared by the forwarding member functions: the motor
stored under `id` receives the call, and nothing happens for an unknown id. -/
def callMotor (s : MotorManager) (id : Nat) (c : MotorCall) : MotorManager :=
  match StdMap.find s.simMotors id with
  | some _ => { s with simMotors := StdMap.update s.simMotors id (fun m => m.call c) }
  | none => s

/-- The member function `setMotorValue` (lines 294-300). -/
def setMotorValue (s : MotorManager) (id : Nat) (value : sReal) : MotorManager :=
  match StdMap.find s.simMotors id with
  | some _ =>
    { s with simMotors :=
        StdMap.update s.simMotors id (fun m => m.call (MotorCall.setControlValue value)) }
  | none => s

/-- The member function `setMotorValueDesiredVelocity` (lines 303-309). -/
def setMotorValueDesiredVelocity (s : MotorManager) (id : Nat) (velocity : sReal) :
    MotorManager :=
  callMotor s id (MotorCall.setVelocity velocity)

/-- The member function `setMotorP` (lines 324-330). -/
def setMotorP (s : MotorManager) (id : Nat) (value : sReal) : MotorManager :=
  callMotor s id (MotorCall.setP value)

/-- The member function `setMotorI` (lines 344-350). -/
def setMotorI (s : MotorManager) (id : Nat) (value : sReal) : MotorManager :=
  callMotor s id (MotorCall.setI value)

/-- The member function `setMotorD` (lines 364-370). -/
def setMotorD (s : MotorManager) (id : Nat) (value : sReal) : MotorManager :=
  callMotor s id (MotorCall.setD value)

/-- The member function `deactivateMotor` (lines 378-384). -/
def deactivateMotor (s : MotorManager) (id : Nat) : MotorManager :=
  callMotor s id MotorCall.deactivate

/-- The member function `moveMotor` (lines 419-425). -/
def moveMotor (s : MotorManager) (index : Nat) (value : sReal) : MotorManager :=
  match StdMap.find s.simMotors index with
  | some _ =>
    { s with simMotors :=
        StdMap.update s.simMotors index (fun m => m.call (MotorCall.setControlValue value)) }
  | none => s

/-- The loop of `updateMotors` (lines 482-483) over the entries that remain:
the motors after it and the calls issued, in order, each with the key of the
motor that receives it. -/
def updateMotorsLoop (calc_ms : sReal) :
    List (Nat × SimMotor) → List (Nat × SimMotor) × List (Nat × MotorCall)
  | [] => ([], [])
  | e :: rest =>
    ((e.1, e.2.call (MotorCall.update calc_ms)) :: (updateMotorsLoop calc_ms rest).1,
      (e.1, MotorCall.update calc_ms) :: (updateMotorsLoop calc_ms rest).2)

/-- The member function `updateMotors` (lines 478-484). -/
def updateMotors (s : MotorManager) (calc_ms : sReal) : MotorManager :=
  { s with simMotors := (updateMotorsLoop calc_ms s.simMotors).1 }

/-- The member calls that `updateMotors` issues, in order. -/
def updateMotorsIssued (s : MotorManager) (calc_ms : sReal) : List (Nat × MotorCall) :=
  (updateMotorsLoop calc_ms s.simMotors).2

/-- The member function `getActualPosition` (lines 487-495); `getPosition` is
the getter of `SimMotor`. -/
def getActualPosition (getPosition : SimMotor → sReal) (s : MotorManager) (motorId : Nat) :
    sReal :=
  match StdMap.find s.simMotors motorId with
  | some m => getPosition m
  | none => 0

/-- The member function `getTorque` (lines 497-505); `getEffort` is the getter
of `SimMotor`. -/
def getTorque (getEffort : SimMotor → sReal) (s : MotorManager) (motorId : Nat) : sReal :=
  match StdMap.find s.simMotors motorId with
  | some m => getEffort m
  | none => 0

/-- The member function `setMaxTorque` (lines 507-514). -/
def setMaxTorque (s : MotorManager) (id : Nat) (maxTorque : sReal) : MotorManager :=
  callMotor s id (MotorCall.setMaxEffort maxTorque)

/-- The member function `setMaxSpeed` (lines 516-523). -/
def setMaxSpeed (s : MotorManager) (id : Nat) (maxSpeed : sReal) : MotorManager :=
  callMotor s id (MotorCall.setMaxSpeed maxSpeed)

/-- The member function `removeJointFromMotors` (lines 536-539), whose body is
empty. -/
def removeJointFromMotors (s : MotorManager) (_joint_index : Nat) : MotorManager := s

/-- The member function `getDataBrokerNames` (lines 541-549): the two strings
behind `groupName` and `dataName` after the call.  `names` is what
`SimMotor::getDataBrokerNames` makes of them. -/
def getDataBrokerNames (names : SimMotor → String × String → String × String)
    (s : MotorManager) (jointId : Nat) (groupName dataName : String) : String × String :=
  match StdMap.find s.simMotors jointId with
  | some m => names m (groupName, dataName)
  | none => (groupName, dataName)

/-- The member function `setOfflinePosition` (lines 562-569). -/
def setOfflinePosition (s : MotorManager) (id : Nat) (pos : sReal) : MotorManager :=
  callMotor s id (MotorCall.setOfflinePosition pos)

/-- The member function `edit` (lines 571-579): `simMotors.count(id) > 0`
guards `simMotors.at(id)->edit(key, value)`. -/
def edit (s : MotorManager) (id : Nat) (key value : String) : MotorManager :=
  callMotor s id (MotorCall.edit key value)

/-- The registry states that the public operations can produce from a newly
constructed `MotorManager`.  The constructor `callMotor` stands for the member
functions that forward one call to the motor stored under an id:
`setMotorValueDesiredVelocity`, `setMotorP`, `setMotorI`, `setMotorD`,
`deactivateMotor`, `setMaxTorque`, `setMaxSpeed`, `setOfflinePosition` and
`edit`. -/
inductive Reachable : MotorManager → Prop where
  | fresh : Reachable fresh
  | addMotor (s : MotorManager) (motorS : MotorData) (reload : Bool) :
      Reachable s → Reachable (addMotor s motorS reload).mgr
  | removeMotor (s : MotorManager) (index : Nat) :
      Reachable s → Reachable (removeMotor s index)
  | editMotor (s : MotorManager) (motorS : MotorData) :
      Reachable s → Reachable (editMotor s motorS)
  | clearAllMotors (s : MotorManager) (clear_all : Bool) :
      Reachable s → Reachable (clearAllMotors s clear_all)
  | reloadMotors (s t : MotorManager) :
      Reachable s → reloadMotors s = some t → Reachable t
  | connectMimics (s t : MotorManager) :
      Reachable s → connectMimics s = some t → Reachable t
  | setMotorValue (s : MotorManager) (id : Nat) (value : sReal) :
      Reachable s → Reachable (setMotorValue s id value)
  | moveMotor (s : MotorManager) (index : Nat) (value : sReal) :
      Reachable s → Reachable (moveMotor s index value)
  | updateMotors (s : MotorManager) (calc_ms : sReal) :
      Reachable s → Reachable (updateMotors s calc_ms)
  | callMotor (s : MotorManager) (id : Nat) (c : MotorCall) :
      Reachable s → Reachable (callMotor s id c)

/-- A call of one of the three operations that may follow one another between
two clears. -/
inductive Call where
  | addMotor (motorS : MotorData) (reload : Bool)
  | removeMotor (index : Nat)
  | editMotor (motorS : MotorData)
deriving DecidableEq, Repr

/-- Whether the call is an `addMotor`. -/
def Call.isAdd : Call → Bool
  | Call.addMotor _ _ => true
  | _ => false

/-- Runs the calls in order on `s`: the results of the `addMotor` calls, in the
order of the calls, and the registry at the end. -/
def runCalls : MotorManager → List Call → List AddMotorResult × MotorManager
  | s, [] => ([], s)
  | s, Call.addMotor motorS reload :: rest =>
    let r := addMotor s motorS reload
    let out := runCalls r.mgr rest
    (r :: out.1, out.2)
  | s, Call.removeMotor index :: rest => runCalls (removeMotor s index) rest
  | s, Call.editMotor motorS :: rest => runCalls (editMotor s motorS) rest

/-- The invariant of the registry: the counter is at least 1, both maps are in
key order, every key of `simMotors` is at least 1 and below the counter, and
every key of `mimicmotors` is a key of `simMotors`. -/
structure Inv (s : MotorManager) : Prop where
  counter : 1 ≤ s.next_motor_id
  ordered : StdMap.Ordered s.simMotors
  mimicOrdered : StdMap.Ordered s.mimicmotors
  positive : ∀ k ∈ StdMap.keys s.simMotors, 1 ≤ k
  below : ∀ k ∈ StdMap.keys s.simMotors, k < s.next_motor_id
  mimic : ∀ k ∈ StdMap.keys s.mimicmotors, k ∈ StdMap.keys s.simMotors

/-- A creation record without configuration, named `M1`. -/
def motorM1 : MotorData :=
  { name := "M1", index := 0, jointIndex := 1, config := [] }

/-- A creation record named `M2` that mimics `M1`. -/
def motorM2 : MotorData :=
  { name := "M2", index := 0, jointIndex := 2,
    config := [("mimic_motor", { asString := "M1", asReal := 0, elements := [] })] }

/-- The registry after `addMotor(M1)` and `addMotor(M2)` on a new one. -/
def twoMotors : MotorManager :=
  (addMotor (addMotor fresh motorM1 false).mgr motorM2 false).mgr

/-- The registry after `addMotor(M1)` on a new one. -/
def oneMotor : MotorManager :=
  (addMotor fresh motorM1 false).mgr

/-- The record `M1` with index 2. -/
def motorM1at2 : MotorData :=
  { name := "M1", index := 2, jointIndex := 1, config := [] }

/-- The calls among `issued` that go to the motor stored under `k`, in order. -/
def callsTo (issued : List (Nat × MotorCall)) (k : Nat) : List MotorCall :=
  (issued.filter (fun c => decide (c.1 = k))).map Prod.snd

/-- What the entry `it` of `mimicmotors` asks for: `addMimic` of the child
`it.1` on the first motor, in key order, that has the parent name `it.2`, and
nothing when no motor has that name. -/
def mimicCall (motors : List (Nat × SimMotor)) (it : Nat × String) : Option (Nat × MotorCall) :=
  (findByName motors it.2).map (fun parent => (parent.1, MotorCall.addMimic it.1))


end MotorManager

namespace MotorManager

/-- A creation record that names the three approximation functions and gives
each an empty coefficient sequence. -/
def motorEmptyCoefficients : MotorData :=
  { name := "M1", index := 0, jointIndex := 1,
    config :=
      [("maxeffort_approximation", { asString := "polynom", asReal := 0, elements := [] }),
       ("maxeffort_coefficients", { asString := "", asReal := 0, elements := [] }),
       ("maxspeed_approximation", { asString := "polynom", asReal := 0, elements := [] }),
       ("maxspeed_coefficients", { asString := "", asReal := 0, elements := [] }),
       ("current_approximation", { asString := "polynom2D", asReal := 0, elements := [] }),
       ("current_coefficients", { asString := "", asReal := 0, elements := [] })] }

/-- A creation record that names the max-effort approximation function and
gives it the coefficients 1 and 2. -/
def motorTwoCoefficients : MotorData :=
  { name := "M1", index := 0, jointIndex := 1,
    config :=
      [("maxeffort_approximation", { asString := "polynom", asReal := 0, elements := [] }),
       ("maxeffort_coefficients", { asString := "", asReal := 0, elements := [1, 2] })] }

end MotorManager

/-! ## `NodeManager` (`src/src/NodeManager.cpp`)

`utils::Vector` and `utils::Quaternion` are type parameters `V` and `Q`: the
functions carry such values, and add and subtract vectors with the operations
the type comes with. -/

namespace NodeManager

/-- The fields of `interfaces::NodeData` that the functions use. -/
structure NodeData (V Q : Type) where
  index : Nat
  noPhysical : Bool
  pos : V
  rot : Q
  map : ConfigMap

/-- What the functions use of `ControlCenter::linkIDManager`, which is declared
outside the sources. -/
structure IDManager where
  isKnown : Nat → Bool
  getName : Nat → String

/-- The member function `getDataBrokerNames` (lines 1543-1555): the value
returned and the two strings behind `groupName` and `dataName` after the
call. -/
def getDataBrokerNames (linkIDManager : IDManager) (id : Nat) (groupName dataName : String) :
    Bool × String × String :=
  if !linkIDManager.isKnown id then (false, groupName, dataName)
  else (true, "mars_sim", "Nodes/" ++ linkIDManager.getName id)

/-- The member calls that `addGlobalCollisionObject` makes on a collision
object. -/
inductive ObjectCall (V Q : Type) where
  | setPosition (pos : V)
  | setRotation (rot : Q)
  | updateTransform
deriving DecidableEq, Repr

/-- What `addNode` and `addGlobalCollisionObject` use of their surroundings:
`NodeData::toConfigMap`, whether `createObject` of the collision interface
returns an object for a configuration (and not null), whether
`control->graphics` is set, and the conversion of a config item to `bool`. -/
structure Backend (V Q : Type) where
  toConfigMap : NodeData V Q → ConfigMap
  createObject : ConfigMap → Bool
  graphics : Bool
  toBool : ConfigItem → Bool

/-- Lines 1945-1947 of `addGlobalCollisionObject`: the configuration handed to
`createObject`, that of the node with `cfgMap["type"] = cfgMap["physicmode"]`. -/
def collisionConfig {V Q : Type} (backend : Backend V Q) (nodeData : NodeData V Q) :
    ConfigMap :=
  let physicmode := ConfigMap.subscript (backend.toConfigMap nodeData) "physicmode"
  ConfigMap.assign (ConfigMap.subscript physicmode.2 "type").2 "type" physicmode.1

/-- The member function `addGlobalCollisionObject` (lines 1940-1966), for a
collision interface that is there, as line 1943 asserts: the value returned and
the calls made on the collision object, in order. -/
def addGlobalCollisionObject {V Q : Type} (backend : Backend V Q) (nodeData : NodeData V Q) :
    Bool × List (ObjectCall V Q) :=
  let cfgMap := collisionConfig backend nodeData
  if !backend.createObject cfgMap then (false, [])
  else if (ConfigMap.subscript cfgMap "type").1.asString = "plane" then
    (true, [ObjectCall.setPosition nodeData.pos, ObjectCall.setRotation nodeData.rot,
      ObjectCall.updateTransform])
  else (true, [])

/-- What a call of `addNode` does: the value returned, the result of
`addGlobalCollisionObject` when it is called, and whether `addDrawObject` is
called. -/
structure AddNodeResult (V Q : Type) where
  ret : Nat
  collision : Option (Bool × List (ObjectCall V Q))
  addDrawObject : Bool

/-- The member function `addNode` (lines 93-113). -/
def addNode {V Q : Type} (backend : Backend V Q) (nodeS : NodeData V Q)
    (_reload loadGraphics : Bool) : AddNodeResult V Q :=
  if !nodeS.noPhysical then
    let success := addGlobalCollisionObject backend nodeS
    let add_draw_object := backend.graphics && loadGraphics
      && (!ConfigMap.has nodeS.map "noVisual"
          || !backend.toBool (ConfigMap.subscript nodeS.map "noVisual").1)
    { ret := nodeS.index, collision := some success, addDrawObject := add_draw_object }
  else { ret := nodeS.index, collision := none, addDrawObject := false }

/-- A node record of a plane, with integers for vectors and quaternions. -/
def planeNode : NodeData Int Int :=
  { index := 4, noPhysical := false, pos := 7, rot := 9,
    map := [("physicmode", { asString := "plane", asReal := 0, elements := [] })] }

/-- A backend whose `createObject` returns null. -/
def failingBackend : Backend Int Int :=
  { toConfigMap := fun nodeData => nodeData.map, createObject := fun _ => false,
    graphics := false, toBool := fun _ => false }

/-- A backend whose `createObject` returns an object. -/
def workingBackend : Backend Int Int :=
  { toConfigMap := fun nodeData => nodeData.map, createObject := fun _ => true,
    graphics := false, toBool := fun _ => false }

end NodeManager

/-! ## `NodeManager::moveDynamicObjects` and `NodeManager::editNode` -/

namespace NodeManager

/-- Modelled from the spec: the interface `interfaces::DynamicObject`, declared
outside the sources, as the rigid-body state that the physics backend exposes
for an object (position, linear and angular velocity, each read back as it was
set) and the objects of its linked frames, given by their addresses. -/
structure DynamicObject (V : Type) where
  position : V
  linearVelocity : V
  angularVelocity : V
  linkedFrames : List Nat

/-- The object after lines 949-955 of `moveDynamicObjects`: its position is set
to `position + translation` and both velocities to `zero`. -/
def DynamicObject.translated {V : Type} [Add V] [Zero V] (object : DynamicObject V)
    (translation : V) : DynamicObject V :=
  { object with
    position := object.position + translation, linearVelocity := 0, angularVelocity := 0 }

/-- The dynamic objects of the scene, by address. -/
abbrev Objects (V : Type) := Nat → DynamicObject V

/-- Lines 949-955 of `moveDynamicObjects`, on the object `currentObject`. -/
def moveObject {V : Type} [Add V] [Zero V] (objects : Objects V) (currentObject : Nat)
    (translation : V) : Objects V :=
  fun a => if a = currentObject then (objects a).translated translation else objects a

/-- Lines 969-986 of `moveDynamicObjects`, "extend processing pool": the loop
over the linked objects that remain.  The pool is the vector
`processingPool` with its last element first. -/
def extendPool (processedObjects : List Nat) : List Nat → List Nat → List Nat
  | [], processingPool => processingPool
  | linkedObject :: rest, processingPool =>
    if linkedObject ∈ processedObjects then
      extendPool processedObjects rest processingPool
    else if linkedObject ∈ processingPool then
      extendPool processedObjects rest processingPool
    else extendPool processedObjects rest (linkedObject :: processingPool)

/-- What `moveDynamicObjects` leaves: the objects, and the objects that the
passes of its loop have moved, one for each pass and in the order of the
passes. -/
structure MoveResult (V : Type) where
  objects : Objects V
  moved : List Nat

/-- The loop of `moveDynamicObjects` (lines 946-987), which may run at most
`fuel` passes: `none` when a further pass would be needed.  `currentObject`,
declared as a reference to the last element of the vector and read after
`pop_back`, is the element that was popped; `processedObjects` is the list of
the objects inserted, of which only membership is read. -/
def moveLoop {V : Type} [Add V] [Zero V] (translation : V) (move_all : Bool) :
    Nat → List Nat → List Nat → Objects V → Option (MoveResult V)
  | _, [], _, objects => some { objects := objects, moved := [] }
  | 0, _ :: _, _, _ => none
  | fuel + 1, currentObject :: processingPool, processedObjects, objects =>
    let objects1 := moveObject objects currentObject translation
    if !move_all then some { objects := objects1, moved := [currentObject] }
    else
      let processedObjects1 := currentObject :: processedObjects
      match moveLoop translation move_all fuel
          (extendPool processedObjects1 (objects1 currentObject).linkedFrames processingPool)
          processedObjects1 objects1 with
      | none => none
      | some r => some { objects := r.objects, moved := currentObject :: r.moved }

/-- The member function `moveDynamicObjects` (lines 934-988), for the dynamic
object `start` that `getDynamicObject(node_id)` returns. -/
def moveDynamicObjects {V : Type} [Add V] [Zero V] (fuel : Nat) (objects : Objects V)
    (start : Nat) (translation : V) (move_all : Bool) : Option (MoveResult V) :=
  moveLoop translation move_all fuel [start] [] objects

/-- An object is linked to another: the second is among the linked frames of the
first. -/
def Linked {V : Type} (objects : Objects V) (a b : Nat) : Prop :=
  b ∈ (objects a).linkedFrames

/-- The objects reachable from `start` through `getLinkedFrames`. -/
def ReachableFrom {V : Type} (objects : Objects V) (start x : Nat) : Prop :=
  Relation.ReflTransGen (Linked objects) start x

/-- Four dynamic objects with integer vectors: 0 is linked to 1 and to itself,
1 to 0 and 2, 3 to 0, and 2 to nothing. -/
def fourObjects : Objects Int :=
  fun a =>
    { position := 10 * a, linearVelocity := 1, angularVelocity := 1,
      linkedFrames :=
        if a = 0 then [1, 0] else if a = 1 then [0, 2] else if a = 3 then [0] else [] }

end NodeManager

/-! ## `CollisionManager` (`src/src/CollisionManager.hpp`) -/

namespace CollisionManager

/-- Modelled from the spec: the key of the handler table for two collidable
names.  `CollisionManager.hpp` declares `collisionHandlers` as a map from pairs
of names to handlers; `CollisionManager.cpp`, which fills and reads it, is not
among the sources.  By the spec the table maps "an unordered pair of collidable
names" to a handler: the pair is keyed with its two names in order. -/
def pairKey (name1 name2 : String) : String × String :=
  (min name1 name2, max name1 name2)

/-- Modelled from the spec: `addCollisionHandler(nameA, nameB, handler)`, which
"registers for the unordered pair; re-registration overwrites silently (last
writer wins)". -/
def addCollisionHandler {H : Type} (collisionHandlers : List ((String × String) × H))
    (name1 name2 : String) (collisionHandler : H) : List ((String × String) × H) :=
  (pairKey name1 name2, collisionHandler)
    :: collisionHandlers.filter (fun e => decide (e.1 ≠ pairKey name1 name2))

/-- Modelled from the spec: the handler that dispatching resolves for a contact
recorded between `name1` and `name2`, "the handler registered for the unordered
pair of the two collidable names"; `none` when there is none and the default
behaviour of the backend applies. -/
def resolveHandler {H : Type} (collisionHandlers : List ((String × String) × H))
    (name1 name2 : String) : Option H :=
  (collisionHandlers.find? (fun e => decide (e.1 = pairKey name1 name2))).map Prod.snd

end CollisionManager

/-! ## The mutex of `MotorManager`

What a member function does with `iMutex` and with the two maps, as the
sequence of these events in the order of the statements.  A `MutexLocker`
locks where it is declared and unlocks where its scope is left, by `return` or
by `throw`.  A loop that holds no mutex call gives one event for each pass
through a body that reads the map. -/

namespace MotorManager

/-- An event on `iMutex` or on one of the two maps. -/
inductive LockEvent where
  | lock
  | unlock
  | simMotors
  | mimicmotors
deriving DecidableEq, Repr

/-- A call of a public member function of `MotorManager`. -/
inductive Operation where
  | addMotor (motorS : MotorData) (reload : Bool)
  | getMotorCount
  | editMotor (motorS : MotorData)
  | getListMotors
  | getFullMotor (index : Nat)
  | removeMotor (index : Nat)
  | getSimMotor (id : Nat)
  | getSimMotorByName (name : String)
  | setMotorValue (id : Nat) (value : sReal)
  | setMotorValueDesiredVelocity (id : Nat) (velocity : sReal)
  | setMotorP (id : Nat) (value : sReal)
  | setMotorI (id : Nat) (value : sReal)
  | setMotorD (id : Nat) (value : sReal)
  | deactivateMotor (id : Nat)
  | getID (name : String)
  | moveMotor (index : Nat) (value : sReal)
  | clearAllMotors (clear_all : Bool)
  | reloadMotors
  | updateMotors (calc_ms : sReal)
  | getActualPosition (motorId : Nat)
  | getTorque (motorId : Nat)
  | setMaxTorque (id : Nat) (maxTorque : sReal)
  | setMaxSpeed (id : Nat) (maxSpeed : sReal)
  | removeJointFromMotors (joint_index : Nat)
  | getDataBrokerNames (jointId : Nat)
  | connectMimics
  | setOfflinePosition (id : Nat) (pos : sReal)
  | edit (id : Nat) (key value : String)

/-- The passes of a loop that looks for the first motor with the name (lines
276-278, 399-403): one read of the map for each entry up to that motor. -/
def scanEvents : List (Nat × SimMotor) → String → List LockEvent
  | [], _ => []
  | e :: rest, name =>
    LockEvent.simMotors :: (if e.2.getName = name then [] else scanEvents rest name)

/-- The events of `getSimMotorByName` (lines 272-280). -/
def getSimMotorByNameEvents (s : MotorManager) (name : String) : List LockEvent :=
  [LockEvent.lock] ++ scanEvents s.simMotors name ++ [LockEvent.unlock]

/-- The events of `connectMimics` (lines 551-560): for each entry of
`mimicmotors` the loop reads the entry, calls `getSimMotorByName`, and
evaluates `simMotors[it->first]` when a parent was found. -/
def connectMimicsEvents (s : MotorManager) : List LockEvent :=
  s.mimicmotors.flatMap (fun it =>
    [LockEvent.mimicmotors] ++ getSimMotorByNameEvents s it.2
      ++ (if (findByName s.simMotors it.2).isSome then [LockEvent.simMotors] else []))

/-- The events of a member function that declares a `MutexLocker`, looks the id
up with `simMotors.find` and returns. -/
def lookupEvents : List LockEvent :=
  [LockEvent.lock, LockEvent.simMotors, LockEvent.unlock]

/-- The events of a call of a public member function on the registry `s`. -/
def events (s : MotorManager) : Operation → List LockEvent
  -- lines 55-58, 60-65, 71-73 and 85
  | Operation.addMotor motorS reload =>
    [LockEvent.lock, LockEvent.unlock]
      ++ (if reload then [] else [LockEvent.lock, LockEvent.unlock])
      ++ [LockEvent.lock, LockEvent.simMotors, LockEvent.unlock]
      ++ (if ConfigMap.has motorS.config "mimic_motor" then [LockEvent.mimicmotors] else [])
  | Operation.getMotorCount => lookupEvents
  | Operation.editMotor _ => lookupEvents
  -- lines 175-181
  | Operation.getListMotors =>
    [LockEvent.lock] ++ List.replicate s.simMotors.length LockEvent.simMotors
      ++ [LockEvent.unlock]
  | Operation.getFullMotor _ => lookupEvents
  -- lines 216-226
  | Operation.removeMotor index =>
    [LockEvent.lock, LockEvent.simMotors]
      ++ (if (StdMap.find s.simMotors index).isSome then [LockEvent.simMotors] else [])
      ++ [LockEvent.mimicmotors, LockEvent.unlock]
  | Operation.getSimMotor _ => lookupEvents
  | Operation.getSimMotorByName name => getSimMotorByNameEvents s name
  | Operation.setMotorValue _ _ => lookupEvents
  | Operation.setMotorValueDesiredVelocity _ _ => lookupEvents
  | Operation.setMotorP _ _ => lookupEvents
  | Operation.setMotorI _ _ => lookupEvents
  | Operation.setMotorD _ _ => lookupEvents
  | Operation.deactivateMotor _ => lookupEvents
  -- lines 397-404
  | Operation.getID name =>
    [LockEvent.lock] ++ scanEvents s.simMotors name ++ [LockEvent.unlock]
  | Operation.moveMotor _ _ => lookupEvents
  -- lines 439-446
  | Operation.clearAllMotors _ =>
    [LockEvent.lock] ++ List.replicate s.simMotors.length LockEvent.simMotors
      ++ [LockEvent.simMotors, LockEvent.mimicmotors, LockEvent.unlock]
  -- lines 459-467
  | Operation.reloadMotors =>
    [LockEvent.lock]
      ++ s.simMotorsReload.flatMap (fun _ => [LockEvent.unlock, LockEvent.lock])
      ++ [LockEvent.unlock] ++ connectMimicsEvents s
  -- lines 481-483
  | Operation.updateMotors _ =>
    [LockEvent.lock] ++ List.replicate s.simMotors.length LockEvent.simMotors
      ++ [LockEvent.unlock]
  | Operation.getActualPosition _ => lookupEvents
  | Operation.getTorque _ => lookupEvents
  | Operation.setMaxTorque _ _ => lookupEvents
  | Operation.setMaxSpeed _ _ => lookupEvents
  | Operation.removeJointFromMotors _ => []
  | Operation.getDataBrokerNames _ => lookupEvents
  | Operation.connectMimics => connectMimicsEvents s
  | Operation.setOfflinePosition _ _ => lookupEvents
  -- lines 574-578
  | Operation.edit id _ _ =>
    [LockEvent.lock, LockEvent.simMotors]
      ++ (if (StdMap.find s.simMotors id).isSome then [LockEvent.simMotors] else [])
      ++ [LockEvent.unlock]

/-- Follows the events with the state of the mutex, `held` or not: `none` when
`lock` comes while the mutex is held or `unlock` while it is not, else whether
it is held at the end. -/
def lockRun : Bool → List LockEvent → Option Bool
  | held, [] => some held
  | held, LockEvent.lock :: rest => if held then none else lockRun true rest
  | held, LockEvent.unlock :: rest => if held then lockRun false rest else none
  | held, LockEvent.simMotors :: rest => lockRun held rest
  | held, LockEvent.mimicmotors :: rest => lockRun held rest

/-- Whether every event on one of the two maps comes while the mutex is
held. -/
def guarded : Bool → List LockEvent → Bool
  | _, [] => true
  | _, LockEvent.lock :: rest => guarded true rest
  | _, LockEvent.unlock :: rest => guarded false rest
  | held, LockEvent.simMotors :: rest => held && guarded held rest
  | held, LockEvent.mimicmotors :: rest => held && guarded held rest

end MotorManager

/-! ## Facts about `std::map` -/

namespace StdMap

theorem find_eq_none_iff {V : Type} (m : List (Nat × V)) (k : Nat) :
    find m k = none ↔ k ∉ keys m := by
  induction m with
  | nil => simp [find, keys]
  | cons e rest ih =>
    obtain ⟨k0, v0⟩ := e
    by_cases h : k0 = k
    · simp [find, keys, h]
    · have h2 : ¬ k = k0 := fun h3 => h h3.symm
      simp only [find, h, if_false, ih]
      simp [keys, h2]

theorem mem_of_find {V : Type} (m : List (Nat × V)) (k : Nat) (v : V)
    (h : find m k = some v) : (k, v) ∈ m := by
  induction m with
  | nil => simp [find] at h
  | cons e rest ih =>
    obtain ⟨k0, v0⟩ := e
    by_cases h0 : k0 = k
    · simp [find, h0] at h
      simp [h0, h]
    · simp only [find, h0, if_false] at h
      exact List.mem_cons_of_mem _ (ih h)

theorem find_of_mem {V : Type} (m : List (Nat × V)) (hm : Ordered m) (k : Nat) (v : V)
    (h : (k, v) ∈ m) : find m k = some v := by
  induction m with
  | nil => simp at h
  | cons e rest ih =>
    obtain ⟨k0, v0⟩ := e
    have hm2 : (∀ a ∈ keys rest, k0 < a) ∧ Ordered rest := by
      simpa [Ordered, keys] using hm
    rcases List.mem_cons.mp h with h1 | h1
    · have hk : k0 = k := (congrArg Prod.fst h1).symm
      have hv : v0 = v := (congrArg Prod.snd h1).symm
      simp [find, hk, hv]
    · have hk : k ∈ keys rest := List.mem_map.mpr ⟨(k, v), h1, rfl⟩
      have hne : ¬ k0 = k := by
        have := hm2.1 k hk
        omega
      simp only [find, hne, if_false]
      exact ih hm2.2 h1

theorem find_assign {V : Type} (m : List (Nat × V)) (k : Nat) (v : V) (j : Nat) :
    find (assign m k v) j = if j = k then some v else find m j := by
  induction m with
  | nil =>
    by_cases h : k = j
    · simp [assign, find, h]
    · have h2 : ¬ j = k := fun h3 => h h3.symm
      simp [assign, find, h, h2]
  | cons e rest ih =>
    obtain ⟨k0, v0⟩ := e
    by_cases hjk : j = k
    · subst hjk
      by_cases h1 : j < k0
      · simp [assign, find, h1]
      · by_cases h2 : j = k0
        · simp [assign, find, h2]
        · have h3 : ¬ k0 = j := fun h4 => h2 h4.symm
          simp [assign, find, h1, h2, h3, ih]
    · have hkj : ¬ k = j := fun h3 => hjk h3.symm
      by_cases h1 : k < k0
      · simp [assign, find, h1, hjk, hkj]
      · by_cases h2 : k = k0
        · subst h2
          simp [assign, find, hjk, hkj]
        · simp [assign, find, h1, h2, hjk, ih]

theorem mem_keys_assign {V : Type} (m : List (Nat × V)) (k : Nat) (v : V) (j : Nat) :
    j ∈ keys (assign m k v) ↔ j = k ∨ j ∈ keys m := by
  have h1 := find_eq_none_iff (assign m k v) j
  have h2 := find_eq_none_iff m j
  rw [find_assign] at h1
  by_cases hjk : j = k
  · simp [hjk] at h1
    simp [hjk, h1]
  · simp only [hjk, if_false] at h1
    simp only [hjk, false_or]
    constructor
    · intro h
      by_contra hc
      exact (h1.mp (h2.mpr hc)) h
    · intro h
      by_contra hc
      exact (h2.mp (h1.mpr hc)) h

theorem length_assign {V : Type} (m : List (Nat × V)) (k : Nat) (v : V)
    (h : k ∉ keys m) : (assign m k v).length = m.length + 1 := by
  induction m with
  | nil => simp [assign]
  | cons e rest ih =>
    obtain ⟨k0, v0⟩ := e
    have hk : ¬ k = k0 ∧ k ∉ keys rest := by simpa [keys] using h
    by_cases h1 : k < k0
    · simp [assign, h1]
    · simp [assign, h1, hk.1, ih hk.2]

theorem ordered_assign {V : Type} (m : List (Nat × V)) (k : Nat) (v : V)
    (h : Ordered m) : Ordered (assign m k v) := by
  induction m with
  | nil => simp [assign, Ordered, keys]
  | cons e rest ih =>
    obtain ⟨k0, v0⟩ := e
    have hm : (∀ a ∈ keys rest, k0 < a) ∧ Ordered rest := by
      simpa [Ordered, keys] using h
    by_cases h1 : k < k0
    · have hall : ∀ a ∈ keys rest, k < a := fun a ha => lt_trans h1 (hm.1 a ha)
      have h0 : Ordered ((k, v) :: (k0, v0) :: rest) := by
        simp only [Ordered, keys, List.map_cons, List.pairwise_cons, List.mem_cons]
        refine ⟨?_, ?_, ?_⟩
        · intro a ha
          rcases ha with ha | ha
          · omega
          · exact hall a ha
        · exact hm.1
        · exact hm.2
      simpa [assign, h1] using h0
    · by_cases h2 : k = k0
      · subst h2
        simpa [assign, Ordered, keys] using h
      · have hrec := ih hm.2
        have hall : ∀ a ∈ keys (assign rest k v), k0 < a := by
          intro a ha
          rcases (mem_keys_assign rest k v a).mp ha with ha | ha
          · omega
          · exact hm.1 a ha
        have h0 : Ordered ((k0, v0) :: assign rest k v) := by
          simp only [Ordered, keys, List.map_cons, List.pairwise_cons]
          exact ⟨hall, hrec⟩
        simpa [assign, h1, h2] using h0

theorem erase_cons {V : Type} (k0 : Nat) (v0 : V) (rest : List (Nat × V)) (k : Nat) :
    erase ((k0, v0) :: rest) k
      = if k0 = k then erase rest k else (k0, v0) :: erase rest k := by
  by_cases h : k0 = k
  · simp [erase, List.filter_cons, h]
  · simp [erase, List.filter_cons, h]

theorem find_erase {V : Type} (m : List (Nat × V)) (k j : Nat) :
    find (erase m k) j = if j = k then none else find m j := by
  induction m with
  | nil => simp [erase, find]
  | cons e rest ih =>
    obtain ⟨k0, v0⟩ := e
    rw [erase_cons]
    by_cases h0 : k0 = k
    · subst h0
      by_cases hj : j = k0
      · subst hj
        simp [ih]
      · have hj2 : ¬ k0 = j := fun h => hj h.symm
        simp [find, ih, hj, hj2]
    · by_cases hj : j = k
      · subst hj
        simp [find, ih, h0]
      · simp [find, ih, h0, hj]

theorem mem_keys_erase {V : Type} (m : List (Nat × V)) (k j : Nat) :
    j ∈ keys (erase m k) ↔ j ≠ k ∧ j ∈ keys m := by
  simp only [keys, erase, List.mem_map, List.mem_filter]
  constructor
  · rintro ⟨e, ⟨he, hk⟩, rfl⟩
    exact ⟨by simpa using hk, e, he, rfl⟩
  · rintro ⟨hk, e, he, rfl⟩
    exact ⟨e, ⟨he, by simpa using hk⟩, rfl⟩

theorem ordered_erase {V : Type} (m : List (Nat × V)) (k : Nat)
    (h : Ordered m) : Ordered (erase m k) := by
  have hsub : (keys (erase m k)).Sublist (keys m) :=
    List.Sublist.map Prod.fst (List.filter_sublist m)
  exact List.Pairwise.sublist hsub h

theorem erase_of_not_mem {V : Type} (m : List (Nat × V)) (k : Nat)
    (h : k ∉ keys m) : erase m k = m := by
  apply List.filter_eq_self.mpr
  intro e he
  have : e.1 ∈ keys m := List.mem_map.mpr ⟨e, he, rfl⟩
  have hne : e.1 ≠ k := fun hc => h (hc ▸ this)
  simpa using hne

theorem erase_erase {V : Type} (m : List (Nat × V)) (k : Nat) :
    erase (erase m k) k = erase m k := by
  simp [erase, List.filter_filter]

theorem length_erase {V : Type} (m : List (Nat × V)) (hm : Ordered m) (k : Nat)
    (h : k ∈ keys m) : (erase m k).length + 1 = m.length := by
  induction m with
  | nil => simp [keys] at h
  | cons e rest ih =>
    obtain ⟨k0, v0⟩ := e
    have hm2 : (∀ a ∈ keys rest, k0 < a) ∧ Ordered rest := by
      simpa [Ordered, keys] using hm
    rw [erase_cons]
    by_cases h0 : k0 = k
    · subst h0
      have hnot : k0 ∉ keys rest := fun hc => lt_irrefl _ (hm2.1 k0 hc)
      simp [erase_of_not_mem rest k0 hnot]
    · have hk : k ∈ keys rest := by
        have : k = k0 ∨ k ∈ keys rest := by simpa [keys] using h
        rcases this with h1 | h1
        · exact absurd h1.symm h0
        · exact h1
      simp [h0, ih hm2.2 hk]

theorem update_cons {V : Type} (k0 : Nat) (v0 : V) (rest : List (Nat × V)) (k : Nat)
    (f : V → V) :
    update ((k0, v0) :: rest) k f
      = (k0, if k0 = k then f v0 else v0) :: update rest k f := by
  by_cases h : k0 = k
  · simp [update, h]
  · simp [update, h]

theorem keys_update {V : Type} (m : List (Nat × V)) (k : Nat) (f : V → V) :
    keys (update m k f) = keys m := by
  induction m with
  | nil => rfl
  | cons e rest ih =>
    obtain ⟨k0, v0⟩ := e
    rw [update_cons]
    simp only [keys, List.map_cons] at ih ⊢
    rw [ih]

theorem find_update {V : Type} (m : List (Nat × V)) (k : Nat) (f : V → V) (j : Nat) :
    find (update m k f) j = if j = k then (find m j).map f else find m j := by
  induction m with
  | nil => simp [update, find]
  | cons e rest ih =>
    obtain ⟨k0, v0⟩ := e
    rw [update_cons]
    by_cases hj : k0 = j
    · subst hj
      by_cases h0 : k0 = k
      · simp [find, h0]
      · simp [find, h0]
    · simp [find, hj, ih]

end StdMap

/-! ## The operations on the two maps -/

namespace MotorManager

theorem addMotor_simMotors (s : MotorManager) (motorS : MotorData) (reload : Bool) :
    ∃ m : SimMotor, (addMotor s motorS reload).mgr.simMotors
      = StdMap.assign s.simMotors s.next_motor_id m :=
  ⟨_, rfl⟩

theorem setMotorMimics_keys (index : Nat) (config : ConfigMap)
    (mimicmotors : List (Nat × String)) (newMotor : SimMotor) (k : Nat)
    (h : k ∈ StdMap.keys (setMotorMimics index config mimicmotors newMotor).2.1) :
    k = index ∨ k ∈ StdMap.keys mimicmotors := by
  unfold setMotorMimics at h
  split at h
  · exact (StdMap.mem_keys_assign _ _ _ _).mp h
  · exact Or.inr h

theorem setMotorMimics_ordered (index : Nat) (config : ConfigMap)
    (mimicmotors : List (Nat × String)) (newMotor : SimMotor)
    (h : StdMap.Ordered mimicmotors) :
    StdMap.Ordered (setMotorMimics index config mimicmotors newMotor).2.1 := by
  unfold setMotorMimics
  split
  · exact StdMap.ordered_assign _ _ _ h
  · exact h

theorem removeMotor_simMotors (s : MotorManager) (index : Nat) :
    (removeMotor s index).simMotors = StdMap.erase s.simMotors index := by
  unfold removeMotor
  cases hf : StdMap.find s.simMotors index with
  | none =>
    have := (StdMap.find_eq_none_iff s.simMotors index).mp hf
    simp [StdMap.erase_of_not_mem _ _ this]
  | some m => simp

theorem editMotor_keys (s : MotorManager) (motorS : MotorData) :
    StdMap.keys (editMotor s motorS).simMotors = StdMap.keys s.simMotors := by
  unfold editMotor
  cases hf : StdMap.find s.simMotors motorS.index with
  | none => simp
  | some m => simp [StdMap.keys_update]

theorem connectMimicsStep_keys (motors : List (Nat × SimMotor)) (it : Nat × String)
    (r : List (Nat × SimMotor) × List (Nat × MotorCall))
    (h : connectMimicsStep motors it = some r) :
    StdMap.keys r.1 = StdMap.keys motors := by
  unfold connectMimicsStep at h
  cases hp : findByName motors it.2 with
  | none =>
    simp only [hp, Option.some.injEq] at h
    rw [← h]
  | some parentmotor =>
    cases hc : StdMap.find motors it.1 with
    | none => simp [hp, hc] at h
    | some child =>
      simp only [hp, hc, Option.some.injEq] at h
      rw [← h]
      dsimp only
      exact StdMap.keys_update motors parentmotor.1 _

theorem connectMimicsLoop_keys (pending : List (Nat × String))
    (motors : List (Nat × SimMotor))
    (r : List (Nat × SimMotor) × List (Nat × MotorCall))
    (h : connectMimicsLoop pending motors = some r) :
    StdMap.keys r.1 = StdMap.keys motors := by
  induction pending generalizing motors r with
  | nil =>
    simp only [connectMimicsLoop, Option.some.injEq] at h
    rw [← h]
  | cons it rest ih =>
    unfold connectMimicsLoop at h
    cases h1 : connectMimicsStep motors it with
    | none => simp [h1] at h
    | some r1 =>
      cases h2 : connectMimicsLoop rest r1.1 with
      | none => simp [h1, h2] at h
      | some r2 =>
        simp only [h1, h2, Option.some.injEq] at h
        rw [← h]
        exact (ih r1.1 r2 h2).trans (connectMimicsStep_keys motors it r1 h1)

theorem connectMimicsLoop_defined (pending : List (Nat × String))
    (motors : List (Nat × SimMotor))
    (h : ∀ k ∈ StdMap.keys pending, k ∈ StdMap.keys motors) :
    ∃ r, connectMimicsLoop pending motors = some r := by
  induction pending generalizing motors with
  | nil => exact ⟨_, rfl⟩
  | cons it rest ih =>
    have hit : it.1 ∈ StdMap.keys motors := h it.1 (by simp [StdMap.keys])
    have hrest : ∀ k ∈ StdMap.keys rest, k ∈ StdMap.keys motors :=
      fun k hk => h k (by simp only [StdMap.keys, List.map_cons, List.mem_cons]; exact Or.inr hk)
    have hstep : ∃ r1, connectMimicsStep motors it = some r1 := by
      unfold connectMimicsStep
      cases hp : findByName motors it.2 with
      | none => exact ⟨_, rfl⟩
      | some parentmotor =>
        cases hc : StdMap.find motors it.1 with
        | none => exact absurd hit ((StdMap.find_eq_none_iff _ _).mp hc)
        | some child => exact ⟨_, rfl⟩
    obtain ⟨r1, h1⟩ := hstep
    have hk1 := connectMimicsStep_keys motors it r1 h1
    obtain ⟨r2, h2⟩ := ih r1.1 (fun k hk => hk1 ▸ hrest k hk)
    exact ⟨(r2.1, r1.2 ++ r2.2), by simp [connectMimicsLoop, h1, h2]⟩

theorem connectMimics_keys (s t : MotorManager) (h : connectMimics s = some t) :
    StdMap.keys t.simMotors = StdMap.keys s.simMotors ∧ t.mimicmotors = s.mimicmotors ∧
      t.simMotorsReload = s.simMotorsReload ∧ t.next_motor_id = s.next_motor_id := by
  unfold connectMimics at h
  cases hl : connectMimicsLoop s.mimicmotors s.simMotors with
  | none => simp [hl] at h
  | some r =>
    simp only [hl, Option.map_some', Option.some.injEq] at h
    rw [← h]
    exact ⟨connectMimicsLoop_keys _ _ r hl, rfl, rfl, rfl⟩

theorem reloadMotors_loop (pool : List MotorData) (s : MotorManager) :
    pool.foldl (fun (acc : MotorManager) (_ : MotorData) => acc) s = s := by
  induction pool with
  | nil => rfl
  | cons d rest ih => simp

theorem reloadMotors_eq (s : MotorManager) : reloadMotors s = connectMimics s := by
  unfold reloadMotors
  rw [reloadMotors_loop]

theorem callMotor_keys (s : MotorManager) (id : Nat) (c : MotorCall) :
    StdMap.keys (callMotor s id c).simMotors = StdMap.keys s.simMotors ∧
      (callMotor s id c).mimicmotors = s.mimicmotors ∧
      (callMotor s id c).simMotorsReload = s.simMotorsReload ∧
      (callMotor s id c).next_motor_id = s.next_motor_id := by
  unfold callMotor
  cases hf : StdMap.find s.simMotors id with
  | none => exact ⟨rfl, rfl, rfl, rfl⟩
  | some m =>
    dsimp only
    exact ⟨StdMap.keys_update s.simMotors id _, rfl, rfl, rfl⟩

theorem setMotorValue_eq (s : MotorManager) (id : Nat) (value : sReal) :
    setMotorValue s id value = callMotor s id (MotorCall.setControlValue value) := rfl

theorem updateMotorsLoop_keys (calc_ms : sReal) (motors : List (Nat × SimMotor)) :
    StdMap.keys (updateMotorsLoop calc_ms motors).1 = StdMap.keys motors := by
  induction motors with
  | nil => rfl
  | cons e rest ih =>
    simp only [StdMap.keys, updateMotorsLoop, List.map_cons] at ih ⊢
    rw [ih]

theorem inv_fresh : Inv fresh := by
  constructor <;> simp [fresh, StdMap.Ordered, StdMap.keys]

theorem inv_addMotor (s : MotorManager) (motorS : MotorData) (reload : Bool)
    (h : Inv s) : Inv (addMotor s motorS reload).mgr := by
  obtain ⟨m, hm⟩ := addMotor_simMotors s motorS reload
  have hnext : (addMotor s motorS reload).mgr.next_motor_id = s.next_motor_id + 1 := rfl
  have hc := h.counter
  constructor
  · rw [hnext]
    omega
  · rw [hm]
    exact StdMap.ordered_assign _ _ _ h.ordered
  · exact setMotorMimics_ordered _ _ _ _ h.mimicOrdered
  · intro k hk
    rw [hm] at hk
    rcases (StdMap.mem_keys_assign _ _ _ _).mp hk with h1 | h1
    · omega
    · exact h.positive k h1
  · intro k hk
    rw [hm] at hk
    rw [hnext]
    rcases (StdMap.mem_keys_assign _ _ _ _).mp hk with h1 | h1
    · omega
    · exact Nat.lt_succ_of_lt (h.below k h1)
  · intro k hk
    rw [hm]
    apply (StdMap.mem_keys_assign _ _ _ _).mpr
    rcases setMotorMimics_keys _ _ _ _ k hk with h1 | h1
    · exact Or.inl h1
    · exact Or.inr (h.mimic k h1)

theorem inv_removeMotor (s : MotorManager) (index : Nat) (h : Inv s) :
    Inv (removeMotor s index) := by
  have hs := removeMotor_simMotors s index
  have hmm : (removeMotor s index).mimicmotors = StdMap.erase s.mimicmotors index := rfl
  have hn : (removeMotor s index).next_motor_id = s.next_motor_id := rfl
  constructor
  · rw [hn]
    exact h.counter
  · rw [hs]
    exact StdMap.ordered_erase _ _ h.ordered
  · rw [hmm]
    exact StdMap.ordered_erase _ _ h.mimicOrdered
  · intro k hk
    rw [hs] at hk
    exact h.positive k ((StdMap.mem_keys_erase _ _ _).mp hk).2
  · intro k hk
    rw [hs] at hk
    rw [hn]
    exact h.below k ((StdMap.mem_keys_erase _ _ _).mp hk).2
  · intro k hk
    rw [hmm] at hk
    rw [hs]
    have hk2 := (StdMap.mem_keys_erase _ _ _).mp hk
    exact (StdMap.mem_keys_erase _ _ _).mpr ⟨hk2.1, h.mimic k hk2.2⟩

theorem inv_of_keys (s t : MotorManager) (h : Inv s)
    (hk : StdMap.keys t.simMotors = StdMap.keys s.simMotors)
    (hm : t.mimicmotors = s.mimicmotors)
    (hn : t.next_motor_id = s.next_motor_id) : Inv t := by
  constructor
  · rw [hn]
    exact h.counter
  · unfold StdMap.Ordered
    rw [hk]
    exact h.ordered
  · rw [hm]
    exact h.mimicOrdered
  · rw [hk]
    exact h.positive
  · rw [hk, hn]
    exact h.below
  · rw [hk, hm]
    exact h.mimic

theorem editMotor_mimicmotors (s : MotorManager) (motorS : MotorData) :
    (editMotor s motorS).mimicmotors = s.mimicmotors := by
  unfold editMotor
  cases StdMap.find s.simMotors motorS.index <;> rfl

theorem editMotor_next (s : MotorManager) (motorS : MotorData) :
    (editMotor s motorS).next_motor_id = s.next_motor_id := by
  unfold editMotor
  cases StdMap.find s.simMotors motorS.index <;> rfl

theorem inv_clearAllMotors (s : MotorManager) (clear_all : Bool) :
    Inv (clearAllMotors s clear_all) := by
  constructor <;> simp [clearAllMotors, StdMap.Ordered, StdMap.keys]

/-- Every reachable registry satisfies the invariant. -/
theorem reachable_invariant (s : MotorManager) (h : Reachable s) : Inv s := by
  induction h with
  | fresh => exact inv_fresh
  | addMotor s motorS reload _ ih => exact inv_addMotor s motorS reload ih
  | removeMotor s index _ ih => exact inv_removeMotor s index ih
  | editMotor s motorS _ ih =>
    exact inv_of_keys s _ ih (editMotor_keys s motorS) (editMotor_mimicmotors s motorS)
      (editMotor_next s motorS)
  | clearAllMotors s clear_all _ ih => exact inv_clearAllMotors s clear_all
  | reloadMotors s t _ ht ih =>
    rw [reloadMotors_eq] at ht
    have hk := connectMimics_keys s t ht
    exact inv_of_keys s t ih hk.1 hk.2.1 hk.2.2.2
  | connectMimics s t _ ht ih =>
    have hk := connectMimics_keys s t ht
    exact inv_of_keys s t ih hk.1 hk.2.1 hk.2.2.2
  | setMotorValue s id value _ ih =>
    exact inv_of_keys s _ ih (callMotor_keys s id _).1 (callMotor_keys s id _).2.1
      (callMotor_keys s id _).2.2.2
  | moveMotor s index value _ ih =>
    exact inv_of_keys s _ ih (callMotor_keys s index _).1 (callMotor_keys s index _).2.1
      (callMotor_keys s index _).2.2.2
  | updateMotors s calc_ms _ ih =>
    exact inv_of_keys s _ ih (updateMotorsLoop_keys calc_ms s.simMotors) rfl rfl
  | callMotor s id c _ ih =>
    exact inv_of_keys s _ ih (callMotor_keys s id c).1 (callMotor_keys s id c).2.1
      (callMotor_keys s id c).2.2.2

theorem removeMotor_next (s : MotorManager) (index : Nat) :
    (removeMotor s index).next_motor_id = s.next_motor_id := rfl

theorem runCalls_results (calls : List Call) (s : MotorManager) (j : Nat)
    (hj : j < calls.countP Call.isAdd) :
    ∃ r, (runCalls s calls).1[j]? = some r ∧ r.ret = s.next_motor_id + j
      ∧ r.motorS.index = s.next_motor_id + j := by
  induction calls generalizing s j with
  | nil => simp at hj
  | cons c rest ih =>
    cases c with
    | addMotor motorS reload =>
      cases j with
      | zero => exact ⟨addMotor s motorS reload, by simp [runCalls], rfl, rfl⟩
      | succ i =>
        have hi : i < rest.countP Call.isAdd := by
          simpa [List.countP_cons, Call.isAdd] using hj
        obtain ⟨r, h1, h2, h3⟩ := ih (addMotor s motorS reload).mgr i hi
        have hn : (addMotor s motorS reload).mgr.next_motor_id = s.next_motor_id + 1 := rfl
        refine ⟨r, by simpa [runCalls] using h1, ?_, ?_⟩
        · rw [h2, hn]
          omega
        · rw [h3, hn]
          omega
    | removeMotor index =>
      have hi : j < rest.countP Call.isAdd := by
        simpa [List.countP_cons, Call.isAdd] using hj
      obtain ⟨r, h1, h2, h3⟩ := ih (removeMotor s index) j hi
      exact ⟨r, by simpa [runCalls] using h1, h2, h3⟩
    | editMotor motorS =>
      have hi : j < rest.countP Call.isAdd := by
        simpa [List.countP_cons, Call.isAdd] using hj
      obtain ⟨r, h1, h2, h3⟩ := ih (editMotor s motorS) j hi
      rw [editMotor_next] at h2 h3
      exact ⟨r, by simpa [runCalls] using h1, h2, h3⟩

theorem find?_first (p : Nat × SimMotor → Bool) (m : List (Nat × SimMotor))
    (hm : StdMap.Ordered m) (e : Nat × SimMotor) (h : m.find? p = some e) :
    ∀ e2 ∈ m, p e2 = true → e.1 ≤ e2.1 := by
  induction m with
  | nil => simp at h
  | cons e0 rest ih =>
    have hm2 : (∀ a ∈ StdMap.keys rest, e0.1 < a) ∧ StdMap.Ordered rest := by
      simpa [StdMap.Ordered, StdMap.keys] using hm
    intro e2 he2 hp2
    by_cases hp : p e0 = true
    · have he : e0 = e := by simpa [List.find?_cons, hp] using h
      subst he
      rcases List.mem_cons.mp he2 with h1 | h1
      · rw [h1]
      · exact le_of_lt (hm2.1 e2.1 (List.mem_map.mpr ⟨e2, h1, rfl⟩))
    · have hrest : rest.find? p = some e := by simpa [List.find?_cons, hp] using h
      rcases List.mem_cons.mp he2 with h1 | h1
      · rw [h1] at hp2
        exact absurd hp2 hp
      · exact ih hm2.2 hrest e2 h1 hp2

/-! ## The claims -/

/-- C1: starting from a newly constructed MotorManager, the k-th call of addMotor
(k at least 1) in any sequence of addMotor, removeMotor and editMotor calls
returns k and writes k into the index field of its record, whatever the
reload flags are. -/
theorem addMotor_kth_call_returns_k (calls : List Call) (k : Nat) (h1 : 1 ≤ k)
    (hk : k ≤ calls.countP Call.isAdd) :
    ∃ r, (runCalls fresh calls).1[k - 1]? = some r ∧ r.ret = k ∧ r.motorS.index = k := by
  obtain ⟨r, hr, hret, hidx⟩ := runCalls_results calls fresh (k - 1) (by omega)
  have hf : fresh.next_motor_id = 1 := rfl
  refine ⟨r, hr, ?_, ?_⟩
  · rw [hret, hf]
    omega
  · rw [hidx, hf]
    omega

/-- Witness of C1: the second addMotor call, after an intervening removeMotor,
returns 2. -/
theorem addMotor_kth_call_returns_k_witness :
    1 ≤ 2 ∧ 2 ≤ List.countP Call.isAdd
        [Call.addMotor motorM1 false, Call.removeMotor 1, Call.addMotor motorM2 true] ∧
      ∃ r, (runCalls fresh
          [Call.addMotor motorM1 false, Call.removeMotor 1, Call.addMotor motorM2 true]).1[2 - 1]?
            = some r ∧ r.ret = 2 ∧ r.motorS.index = 2 :=
  ⟨by decide, by decide,
    addMotor_kth_call_returns_k
      [Call.addMotor motorM1 false, Call.removeMotor 1, Call.addMotor motorM2 true] 2
      (by decide) (by decide)⟩

/-- C2: in every registry reachable from a new MotorManager, every key of the
actuator map is strictly below the next-id counter; hence the id that addMotor
returns is not a key already present, and every actuator stored before the call
is still stored under its id after it. -/
theorem id_never_reused_while_live (s : MotorManager) (h : Reachable s) :
    (∀ k ∈ StdMap.keys s.simMotors, k < s.next_motor_id) ∧
    ∀ (motorS : MotorData) (reload : Bool),
      (addMotor s motorS reload).ret ∉ StdMap.keys s.simMotors ∧
      ∀ (j : Nat) (m : SimMotor), StdMap.find s.simMotors j = some m →
        StdMap.find (addMotor s motorS reload).mgr.simMotors j = some m := by
  have hinv := reachable_invariant s h
  have hfresh : s.next_motor_id ∉ StdMap.keys s.simMotors :=
    fun hc => lt_irrefl _ (hinv.below _ hc)
  refine ⟨hinv.below, fun motorS reload => ⟨hfresh, ?_⟩⟩
  intro j m hj
  obtain ⟨m2, hm2⟩ := addMotor_simMotors s motorS reload
  rw [hm2, StdMap.find_assign]
  have hne : j ≠ s.next_motor_id := by
    intro hc
    rw [hc, (StdMap.find_eq_none_iff _ _).mpr hfresh] at hj
    cases hj
  simp [hne, hj]

/-- Witness of C2 at the registry holding the motors 1 and 2. -/
theorem id_never_reused_while_live_witness :
    Reachable twoMotors ∧
    ((∀ k ∈ StdMap.keys twoMotors.simMotors, k < twoMotors.next_motor_id) ∧
    ∀ (motorS : MotorData) (reload : Bool),
      (addMotor twoMotors motorS reload).ret ∉ StdMap.keys twoMotors.simMotors ∧
      ∀ (j : Nat) (m : SimMotor), StdMap.find twoMotors.simMotors j = some m →
        StdMap.find (addMotor twoMotors motorS reload).mgr.simMotors j = some m) :=
  ⟨Reachable.addMotor _ _ _ (Reachable.addMotor _ _ _ Reachable.fresh),
    id_never_reused_while_live twoMotors
      (Reachable.addMotor _ _ _ (Reachable.addMotor _ _ _ Reachable.fresh))⟩

/-- C3: in a reachable registry, after addMotor returns id i the actuator map
contains i (getSimMotor(i) is not null), getMotorCount() is one larger than
before the call, and the entry of every other id is unchanged. -/
theorem addMotor_adds_one_entry (s : MotorManager) (h : Reachable s)
    (motorS : MotorData) (reload : Bool) :
    (getSimMotor (addMotor s motorS reload).mgr (addMotor s motorS reload).ret).isSome = true ∧
    getMotorCount (addMotor s motorS reload).mgr = getMotorCount s + 1 ∧
    ∀ j : Nat, j ≠ (addMotor s motorS reload).ret →
      getSimMotor (addMotor s motorS reload).mgr j = getSimMotor s j := by
  have hinv := reachable_invariant s h
  have hfresh : s.next_motor_id ∉ StdMap.keys s.simMotors :=
    fun hc => lt_irrefl _ (hinv.below _ hc)
  obtain ⟨m2, hm2⟩ := addMotor_simMotors s motorS reload
  have hret : (addMotor s motorS reload).ret = s.next_motor_id := rfl
  refine ⟨?_, ?_, ?_⟩
  · simp only [getSimMotor]
    rw [hm2, hret, StdMap.find_assign]
    simp
  · simp only [getMotorCount]
    rw [hm2]
    exact StdMap.length_assign _ _ _ hfresh
  · intro j hj
    rw [hret] at hj
    simp only [getSimMotor]
    rw [hm2, StdMap.find_assign]
    simp [hj]

/-- Witness of C3 at the registry holding the motors 1 and 2. -/
theorem addMotor_adds_one_entry_witness :
    Reachable twoMotors ∧
    ((getSimMotor (addMotor twoMotors motorM1 true).mgr
        (addMotor twoMotors motorM1 true).ret).isSome = true ∧
    getMotorCount (addMotor twoMotors motorM1 true).mgr = getMotorCount twoMotors + 1 ∧
    ∀ j : Nat, j ≠ (addMotor twoMotors motorM1 true).ret →
      getSimMotor (addMotor twoMotors motorM1 true).mgr j = getSimMotor twoMotors j) :=
  ⟨Reachable.addMotor _ _ _ (Reachable.addMotor _ _ _ Reachable.fresh),
    addMotor_adds_one_entry twoMotors
      (Reachable.addMotor _ _ _ (Reachable.addMotor _ _ _ Reachable.fresh)) motorM1 true⟩

/-- C4: addMotor(record, reload) appends exactly one record to the end of the
reload pool when reload is false, namely the input record with its index set to
the returned id, and leaves the reload pool unchanged when reload is true. -/
theorem addMotor_reload_pool (s : MotorManager) (motorS : MotorData) (reload : Bool) :
    (addMotor s motorS reload).mgr.simMotorsReload
      = if reload = true then s.simMotorsReload
        else s.simMotorsReload ++ [{ motorS with index := (addMotor s motorS reload).ret }] := by
  cases reload <;> rfl

/-- C5: in a reachable registry, for an id i present in the actuator map,
removeMotor(i) removes i from the actuator map (which loses exactly that entry)
and from the mimic-parent map, and leaves every other entry of both maps, the
reload pool (every record it held is still there) and the next-id counter
unchanged. -/
theorem removeMotor_present (s : MotorManager) (h : Reachable s) (i : Nat)
    (hi : i ∈ StdMap.keys s.simMotors) :
    StdMap.find (removeMotor s i).simMotors i = none ∧
    StdMap.find (removeMotor s i).mimicmotors i = none ∧
    getMotorCount (removeMotor s i) + 1 = getMotorCount s ∧
    (∀ j : Nat, j ≠ i →
      StdMap.find (removeMotor s i).simMotors j = StdMap.find s.simMotors j) ∧
    (∀ j : Nat, j ≠ i →
      StdMap.find (removeMotor s i).mimicmotors j = StdMap.find s.mimicmotors j) ∧
    (removeMotor s i).simMotorsReload = s.simMotorsReload ∧
    (removeMotor s i).next_motor_id = s.next_motor_id := by
  have hinv := reachable_invariant s h
  have hs := removeMotor_simMotors s i
  have hmm : (removeMotor s i).mimicmotors = StdMap.erase s.mimicmotors i := rfl
  refine ⟨?_, ?_, ?_, ?_, ?_, rfl, rfl⟩
  · rw [hs, StdMap.find_erase]
    simp
  · rw [hmm, StdMap.find_erase]
    simp
  · simp only [getMotorCount]
    rw [hs]
    exact StdMap.length_erase _ hinv.ordered i hi
  · intro j hj
    rw [hs, StdMap.find_erase]
    simp [hj]
  · intro j hj
    rw [hmm, StdMap.find_erase]
    simp [hj]

/-- Witness of C5: removing motor 2 from the registry holding motors 1 and 2. -/
theorem removeMotor_present_witness :
    Reachable twoMotors ∧ 2 ∈ StdMap.keys twoMotors.simMotors ∧
    (StdMap.find (removeMotor twoMotors 2).simMotors 2 = none ∧
    StdMap.find (removeMotor twoMotors 2).mimicmotors 2 = none ∧
    getMotorCount (removeMotor twoMotors 2) + 1 = getMotorCount twoMotors ∧
    (∀ j : Nat, j ≠ 2 →
      StdMap.find (removeMotor twoMotors 2).simMotors j = StdMap.find twoMotors.simMotors j) ∧
    (∀ j : Nat, j ≠ 2 →
      StdMap.find (removeMotor twoMotors 2).mimicmotors j
        = StdMap.find twoMotors.mimicmotors j) ∧
    (removeMotor twoMotors 2).simMotorsReload = twoMotors.simMotorsReload ∧
    (removeMotor twoMotors 2).next_motor_id = twoMotors.next_motor_id) :=
  ⟨Reachable.addMotor _ _ _ (Reachable.addMotor _ _ _ Reachable.fresh), by decide,
    removeMotor_present twoMotors
      (Reachable.addMotor _ _ _ (Reachable.addMotor _ _ _ Reachable.fresh)) 2 (by decide)⟩

/-- C6: removeMotor is idempotent.  In every reachable registry and for every
id i, when i is absent from the actuator map removeMotor(i) leaves the registry
(actuator map, mimic-parent map, reload pool and counter) as it was; and
removeMotor(i) followed by removeMotor(i) yields the same registry as a single
removeMotor(i). -/
theorem removeMotor_idempotent (s : MotorManager) (h : Reachable s) (i : Nat) :
    (i ∉ StdMap.keys s.simMotors → removeMotor s i = s) ∧
    removeMotor (removeMotor s i) i = removeMotor s i := by
  have key : ∀ t : MotorManager, Inv t → i ∉ StdMap.keys t.simMotors →
      removeMotor t i = t := by
    intro t ht hi
    have hmi : i ∉ StdMap.keys t.mimicmotors := fun hc => hi (ht.mimic i hc)
    have h1 := removeMotor_simMotors t i
    rw [StdMap.erase_of_not_mem _ _ hi] at h1
    have h2 : (removeMotor t i).mimicmotors = t.mimicmotors := by
      show StdMap.erase t.mimicmotors i = t.mimicmotors
      exact StdMap.erase_of_not_mem _ _ hmi
    have h3 : (removeMotor t i).simMotorsReload = t.simMotorsReload := rfl
    have h4 : (removeMotor t i).next_motor_id = t.next_motor_id := rfl
    cases t
    cases hr : removeMotor _ i
    simp only [hr] at h1 h2 h3 h4
    simp only [MotorManager.mk.injEq]
    exact ⟨h1, h2, h3, h4⟩
  have hinv := reachable_invariant s h
  refine ⟨key s hinv, ?_⟩
  apply key (removeMotor s i) (inv_removeMotor s i hinv)
  rw [removeMotor_simMotors]
  intro hc
  exact ((StdMap.mem_keys_erase _ _ _).mp hc).1 rfl

/-- Witness of C6: id 7 is unknown to the registry holding motors 1 and 2. -/
theorem removeMotor_idempotent_witness :
    Reachable twoMotors ∧
    ((7 ∉ StdMap.keys twoMotors.simMotors → removeMotor twoMotors 7 = twoMotors) ∧
    removeMotor (removeMotor twoMotors 7) 7 = removeMotor twoMotors 7) :=
  ⟨Reachable.addMotor _ _ _ (Reachable.addMotor _ _ _ Reachable.fresh),
    removeMotor_idempotent twoMotors
      (Reachable.addMotor _ _ _ (Reachable.addMotor _ _ _ Reachable.fresh)) 7⟩

/-- C7: getFullMotor(i) fails with the runtime error exactly when i is not a key
of the actuator map, and when i is a key it returns the record of the actuator
stored under i.  It is a function of the registry alone, with no effect on
it. -/
theorem getFullMotor_fails_iff_unknown (s : MotorManager) (i : Nat) :
    ((∃ msg : String, getFullMotor s i = Except.error msg) ↔ i ∉ StdMap.keys s.simMotors) ∧
    (∀ m : SimMotor, StdMap.find s.simMotors i = some m →
      getFullMotor s i = Except.ok m.getSMotor) := by
  constructor
  · rw [← StdMap.find_eq_none_iff]
    unfold getFullMotor
    cases hf : StdMap.find s.simMotors i with
    | none => simp
    | some m => simp
  · intro m hm
    unfold getFullMotor
    rw [hm]

/-- C8: in a reachable registry, getID(name) returns 0 exactly when no actuator
of the map has that name; otherwise the id it returns is the key of an actuator
with that name, is not 0, and is at most the key of every actuator with that
name.  It is a total function: it never fails. -/
theorem getID_zero_iff_absent (s : MotorManager) (h : Reachable s) (name : String) :
    (getID s name = 0 ↔
      ∀ (k : Nat) (m : SimMotor), StdMap.find s.simMotors k = some m → m.getName ≠ name) ∧
    ((∃ (k : Nat) (m : SimMotor), StdMap.find s.simMotors k = some m ∧ m.getName = name) →
      getID s name ≠ 0 ∧
      (∃ m : SimMotor, StdMap.find s.simMotors (getID s name) = some m ∧ m.getName = name) ∧
      ∀ (k : Nat) (m : SimMotor), StdMap.find s.simMotors k = some m → m.getName = name →
        getID s name ≤ k) := by
  have hinv := reachable_invariant s h
  have hzero : getID s name = 0 ↔
      ∀ (k : Nat) (m : SimMotor), StdMap.find s.simMotors k = some m → m.getName ≠ name := by
    unfold getID
    cases hf : s.simMotors.find? (fun e => decide (e.2.getName = name)) with
    | none =>
      simp only [true_iff]
      intro k m hkm hname
      have hnone := List.find?_eq_none.mp hf (k, m) (StdMap.mem_of_find _ _ _ hkm)
      simp [hname] at hnone
    | some e =>
      have hmem : e ∈ s.simMotors := List.mem_of_find?_eq_some hf
      have hp := List.find?_some hf
      have hpos : 1 ≤ e.1 := hinv.positive e.1 (List.mem_map.mpr ⟨e, hmem, rfl⟩)
      constructor
      · intro h0
        simp only at h0
        omega
      · intro hall
        have hfind : StdMap.find s.simMotors e.1 = some e.2 :=
          StdMap.find_of_mem _ hinv.ordered e.1 e.2 hmem
        exact absurd (by simpa using hp) (hall e.1 e.2 hfind)
  refine ⟨hzero, ?_⟩
  rintro ⟨k0, m0, hk0, hn0⟩
  have hne : getID s name ≠ 0 := fun hc => (hzero.mp hc) k0 m0 hk0 hn0
  refine ⟨hne, ?_, ?_⟩
  · unfold getID at hne ⊢
    cases hf : s.simMotors.find? (fun e => decide (e.2.getName = name)) with
    | none => simp [hf] at hne
    | some e =>
      have hmem : e ∈ s.simMotors := List.mem_of_find?_eq_some hf
      have hp := List.find?_some hf
      exact ⟨e.2, StdMap.find_of_mem _ hinv.ordered e.1 e.2 hmem, by simpa using hp⟩
  · intro k m hkm hname
    unfold getID at hne ⊢
    cases hf : s.simMotors.find? (fun e => decide (e.2.getName = name)) with
    | none => simp [hf] at hne
    | some e =>
      exact find?_first _ s.simMotors hinv.ordered e hf (k, m)
        (StdMap.mem_of_find _ _ _ hkm) (by simp [hname])

/-- Witness of C8: the name M2 in the registry holding motors 1 and 2. -/
theorem getID_zero_iff_absent_witness :
    Reachable twoMotors ∧
    ((getID twoMotors "M2" = 0 ↔
      ∀ (k : Nat) (m : SimMotor), StdMap.find twoMotors.simMotors k = some m →
        m.getName ≠ "M2") ∧
    ((∃ (k : Nat) (m : SimMotor), StdMap.find twoMotors.simMotors k = some m ∧
        m.getName = "M2") →
      getID twoMotors "M2" ≠ 0 ∧
      (∃ m : SimMotor, StdMap.find twoMotors.simMotors (getID twoMotors "M2") = some m ∧
        m.getName = "M2") ∧
      ∀ (k : Nat) (m : SimMotor), StdMap.find twoMotors.simMotors k = some m →
        m.getName = "M2" → getID twoMotors "M2" ≤ k)) :=
  ⟨Reachable.addMotor _ _ _ (Reachable.addMotor _ _ _ Reachable.fresh),
    getID_zero_iff_absent twoMotors
      (Reachable.addMotor _ _ _ (Reachable.addMotor _ _ _ Reachable.fresh)) "M2"⟩

/-- C9: after clearAllMotors(clear_all) the actuator map and the mimic-parent map
are empty and getMotorCount() is 0; the reload pool is unchanged when clear_all
is false and empty when clear_all is true. -/
theorem clearAllMotors_empties_maps (s : MotorManager) (clear_all : Bool) :
    (clearAllMotors s clear_all).simMotors = [] ∧
    (clearAllMotors s clear_all).mimicmotors = [] ∧
    getMotorCount (clearAllMotors s clear_all) = 0 ∧
    (clearAllMotors s clear_all).simMotorsReload
      = if clear_all = true then [] else s.simMotorsReload := by
  cases clear_all <;> exact ⟨rfl, rfl, rfl, rfl⟩

/-- C10: clearAllMotors resets the next-id counter to 1: after
clearAllMotors(clear_all), for either value of clear_all, the next addMotor
returns 1. -/
theorem clearAllMotors_resets_counter (s : MotorManager) (clear_all : Bool)
    (motorS : MotorData) (reload : Bool) :
    (clearAllMotors s clear_all).next_motor_id = 1 ∧
    (addMotor (clearAllMotors s clear_all) motorS reload).ret = 1 ∧
    (addMotor (clearAllMotors s clear_all) motorS reload).motorS.index = 1 :=
  ⟨rfl, rfl, rfl⟩

/-- C11, the code at a failing input: with one record in the reload pool,
clearAllMotors(false) followed by reloadMotors leaves the pool with its one
record but getMotorCount() at 0, where the claim has 1: the loop of
reloadMotors adds nothing back. -/
theorem reloadMotors_readds_nothing :
    (clearAllMotors oneMotor false).simMotorsReload = [{ motorM1 with index := 1 }] ∧
    ∃ t, reloadMotors (clearAllMotors oneMotor false) = some t ∧
      getMotorCount t = 0 ∧
      t.simMotorsReload = [{ motorM1 with index := 1 }] :=
  ⟨rfl, _, rfl, rfl, rfl⟩

/-- C12, the code at a failing input: the registry built by addMotor(M1, false)
and addMotor(M2, false) holds the ids 1 and 2 and the mimic link of 2 to M1;
after clearAllMotors(false) followed by reloadMotors it holds no id and no
mimic link. -/
theorem clear_then_reload_loses_motors :
    StdMap.keys twoMotors.simMotors = [1, 2] ∧
    twoMotors.mimicmotors = [(2, "M1")] ∧
    ∃ t, reloadMotors (clearAllMotors twoMotors false) = some t ∧
      StdMap.keys t.simMotors = [] ∧ t.mimicmotors = [] :=
  ⟨rfl, rfl, _, rfl, rfl, rfl⟩

/-- C13: in every registry reachable from a new MotorManager by addMotor,
removeMotor, editMotor, clearAllMotors, reloadMotors, connectMimics (and the
forwarding operations), every key of the mimic-parent map is a key of the
actuator map; connectMimics and reloadMotors are defined on such a registry. -/
theorem mimic_keys_are_motor_keys (s : MotorManager) (h : Reachable s) :
    (∀ k ∈ StdMap.keys s.mimicmotors, k ∈ StdMap.keys s.simMotors) ∧
    (∃ t, connectMimics s = some t) ∧ (∃ t, reloadMotors s = some t) := by
  have hinv := reachable_invariant s h
  have hdef : ∃ t, connectMimics s = some t := by
    obtain ⟨r, hr⟩ := connectMimicsLoop_defined s.mimicmotors s.simMotors hinv.mimic
    exact ⟨{ s with simMotors := r.1 }, by simp [connectMimics, hr]⟩
  refine ⟨hinv.mimic, hdef, ?_⟩
  rw [reloadMotors_eq]
  exact hdef

/-- Witness of C13 at the registry holding motors 1 and 2, where 2 mimics 1. -/
theorem mimic_keys_are_motor_keys_witness :
    Reachable twoMotors ∧
    ((∀ k ∈ StdMap.keys twoMotors.mimicmotors, k ∈ StdMap.keys twoMotors.simMotors) ∧
    (∃ t, connectMimics twoMotors = some t) ∧ (∃ t, reloadMotors twoMotors = some t)) :=
  ⟨Reachable.addMotor _ _ _ (Reachable.addMotor _ _ _ Reachable.fresh),
    mimic_keys_are_motor_keys twoMotors
      (Reachable.addMotor _ _ _ (Reachable.addMotor _ _ _ Reachable.fresh))⟩

theorem callMotor_unknown (s : MotorManager) (id : Nat) (c : MotorCall)
    (h : StdMap.find s.simMotors id = none) : callMotor s id c = s := by
  unfold callMotor
  rw [h]

/-- C14: in a reachable registry, for an id that is not a key of the actuator
map, getFullMotor is the one operation that fails; setMotorP, setMotorI,
setMotorD, setMaxTorque, setMaxSpeed, setMotorValue,
setMotorValueDesiredVelocity, moveMotor, deactivateMotor, editMotor, edit,
setOfflinePosition and removeMotor leave the registry as it is (no motor
receives a call), getDataBrokerNames leaves both strings as they are,
getSimMotor returns NULL, and getActualPosition and getTorque return 0. -/
theorem unknown_id_is_silent (s : MotorManager) (h : Reachable s) (id : Nat)
    (hid : id ∉ StdMap.keys s.simMotors) :
    (∃ msg : String, getFullMotor s id = Except.error msg) ∧
    (∀ v : sReal, setMotorP s id v = s ∧ setMotorI s id v = s ∧ setMotorD s id v = s ∧
      setMaxTorque s id v = s ∧ setMaxSpeed s id v = s ∧ setMotorValue s id v = s ∧
      setMotorValueDesiredVelocity s id v = s ∧ moveMotor s id v = s ∧
      setOfflinePosition s id v = s) ∧
    deactivateMotor s id = s ∧
    (∀ motorS : MotorData, motorS.index = id → editMotor s motorS = s) ∧
    (∀ key value : String, edit s id key value = s) ∧
    removeMotor s id = s ∧
    (∀ (names : SimMotor → String × String → String × String) (groupName dataName : String),
      getDataBrokerNames names s id groupName dataName = (groupName, dataName)) ∧
    getSimMotor s id = none ∧
    (∀ getPosition : SimMotor → sReal, getActualPosition getPosition s id = 0) ∧
    (∀ getEffort : SimMotor → sReal, getTorque getEffort s id = 0) := by
  have hinv := reachable_invariant s h
  have hf : StdMap.find s.simMotors id = none := (StdMap.find_eq_none_iff _ _).mpr hid
  have hcall : ∀ c : MotorCall, callMotor s id c = s := fun c => callMotor_unknown s id c hf
  refine ⟨?_, ?_, hcall _, ?_, fun key value => hcall _, ?_, ?_, hf, ?_, ?_⟩
  · exact ⟨"could not find motor with index: " ++ toString id, by simp [getFullMotor, hf]⟩
  · intro v
    exact ⟨hcall _, hcall _, hcall _, hcall _, hcall _, hcall (MotorCall.setControlValue v),
      hcall _, hcall (MotorCall.setControlValue v), hcall _⟩
  · intro motorS hidx
    unfold editMotor
    rw [hidx, hf]
  · have hmi : id ∉ StdMap.keys s.mimicmotors := fun hc => hid (hinv.mimic id hc)
    have h1 := removeMotor_simMotors s id
    rw [StdMap.erase_of_not_mem _ _ hid] at h1
    have h2 : (removeMotor s id).mimicmotors = s.mimicmotors :=
      StdMap.erase_of_not_mem _ _ hmi
    have h3 : (removeMotor s id).simMotorsReload = s.simMotorsReload := rfl
    have h4 : (removeMotor s id).next_motor_id = s.next_motor_id := rfl
    cases s
    cases hr : removeMotor _ id
    simp only [hr] at h1 h2 h3 h4
    simp only [MotorManager.mk.injEq]
    exact ⟨h1, h2, h3, h4⟩
  · intro names groupName dataName
    simp [getDataBrokerNames, hf]
  · intro getPosition
    simp [getActualPosition, hf]
  · intro getEffort
    simp [getTorque, hf]

/-- Witness of C14: id 7 is unknown to the registry holding motors 1 and 2. -/
theorem unknown_id_is_silent_witness :
    Reachable twoMotors ∧ 7 ∉ StdMap.keys twoMotors.simMotors ∧
    ((∃ msg : String, getFullMotor twoMotors 7 = Except.error msg) ∧
    (∀ v : sReal, setMotorP twoMotors 7 v = twoMotors ∧ setMotorI twoMotors 7 v = twoMotors ∧
      setMotorD twoMotors 7 v = twoMotors ∧
      setMaxTorque twoMotors 7 v = twoMotors ∧ setMaxSpeed twoMotors 7 v = twoMotors ∧
      setMotorValue twoMotors 7 v = twoMotors ∧
      setMotorValueDesiredVelocity twoMotors 7 v = twoMotors ∧
      moveMotor twoMotors 7 v = twoMotors ∧
      setOfflinePosition twoMotors 7 v = twoMotors) ∧
    deactivateMotor twoMotors 7 = twoMotors ∧
    (∀ motorS : MotorData, motorS.index = 7 → editMotor twoMotors motorS = twoMotors) ∧
    (∀ key value : String, edit twoMotors 7 key value = twoMotors) ∧
    removeMotor twoMotors 7 = twoMotors ∧
    (∀ (names : SimMotor → String × String → String × String) (groupName dataName : String),
      getDataBrokerNames names twoMotors 7 groupName dataName = (groupName, dataName)) ∧
    getSimMotor twoMotors 7 = none ∧
    (∀ getPosition : SimMotor → sReal, getActualPosition getPosition twoMotors 7 = 0) ∧
    (∀ getEffort : SimMotor → sReal, getTorque getEffort twoMotors 7 = 0)) :=
  ⟨Reachable.addMotor _ _ _ (Reachable.addMotor _ _ _ Reachable.fresh), by decide,
    unknown_id_is_silent twoMotors
      (Reachable.addMotor _ _ _ (Reachable.addMotor _ _ _ Reachable.fresh)) 7 (by decide)⟩

theorem updateMotorsLoop_issued (calc_ms : sReal) (motors : List (Nat × SimMotor)) :
    (updateMotorsLoop calc_ms motors).2
      = (StdMap.keys motors).map (fun k => (k, MotorCall.update calc_ms)) := by
  induction motors with
  | nil => rfl
  | cons e rest ih =>
    simp only [StdMap.keys, updateMotorsLoop, List.map_cons] at ih ⊢
    rw [ih]

theorem updateMotorsLoop_find (calc_ms : sReal) (motors : List (Nat × SimMotor)) (k : Nat) :
    StdMap.find (updateMotorsLoop calc_ms motors).1 k
      = (StdMap.find motors k).map (fun m => m.call (MotorCall.update calc_ms)) := by
  induction motors with
  | nil => rfl
  | cons e rest ih =>
    obtain ⟨k0, v0⟩ := e
    by_cases h : k0 = k
    · simp [updateMotorsLoop, StdMap.find, h]
    · simp [updateMotorsLoop, StdMap.find, h, ih]

/-- C17: in a reachable registry, updateMotors(calc_ms) issues update(calc_ms)
on the motors of the actuator map in the order of their ids, which is strictly
ascending, one call for each id and every call with the same calc_ms; each
motor has received exactly that call, and the key set of the actuator map, the
mimic-parent map, the reload pool and the next-id counter are unchanged. -/
theorem updateMotors_updates_each_once (s : MotorManager) (h : Reachable s)
    (calc_ms : sReal) :
    updateMotorsIssued s calc_ms
      = (StdMap.keys s.simMotors).map (fun k => (k, MotorCall.update calc_ms)) ∧
    (StdMap.keys s.simMotors).Pairwise (fun a b => a < b) ∧
    (∀ k : Nat, StdMap.find (updateMotors s calc_ms).simMotors k
      = (StdMap.find s.simMotors k).map (fun m => m.call (MotorCall.update calc_ms))) ∧
    StdMap.keys (updateMotors s calc_ms).simMotors = StdMap.keys s.simMotors ∧
    (updateMotors s calc_ms).mimicmotors = s.mimicmotors ∧
    (updateMotors s calc_ms).simMotorsReload = s.simMotorsReload ∧
    (updateMotors s calc_ms).next_motor_id = s.next_motor_id :=
  ⟨updateMotorsLoop_issued calc_ms s.simMotors, (reachable_invariant s h).ordered,
    updateMotorsLoop_find calc_ms s.simMotors, updateMotorsLoop_keys calc_ms s.simMotors,
    rfl, rfl, rfl⟩

/-- Witness of C17 at the registry holding motors 1 and 2, with calc_ms 5. -/
theorem updateMotors_updates_each_once_witness :
    Reachable twoMotors ∧
    (updateMotorsIssued twoMotors 5
      = (StdMap.keys twoMotors.simMotors).map (fun k => (k, MotorCall.update 5)) ∧
    (StdMap.keys twoMotors.simMotors).Pairwise (fun a b => a < b) ∧
    (∀ k : Nat, StdMap.find (updateMotors twoMotors 5).simMotors k
      = (StdMap.find twoMotors.simMotors k).map (fun m => m.call (MotorCall.update 5))) ∧
    StdMap.keys (updateMotors twoMotors 5).simMotors = StdMap.keys twoMotors.simMotors ∧
    (updateMotors twoMotors 5).mimicmotors = twoMotors.mimicmotors ∧
    (updateMotors twoMotors 5).simMotorsReload = twoMotors.simMotorsReload ∧
    (updateMotors twoMotors 5).next_motor_id = twoMotors.next_motor_id) :=
  ⟨Reachable.addMotor _ _ _ (Reachable.addMotor _ _ _ Reachable.fresh),
    updateMotors_updates_each_once twoMotors
      (Reachable.addMotor _ _ _ (Reachable.addMotor _ _ _ Reachable.fresh)) 5⟩

/-- C18: editMotor(data) replaces by id.  When data.index is a key of the
actuator map, the motor stored under it receives setSMotor(data), so that a
following getFullMotor(data.index) returns data; the entry of every other id is
unchanged, and so are the key set, the mimic-parent map, the reload pool and
the counter. -/
theorem editMotor_replaces_by_id (s : MotorManager) (motorS : MotorData)
    (h : motorS.index ∈ StdMap.keys s.simMotors) :
    StdMap.find (editMotor s motorS).simMotors motorS.index
      = (StdMap.find s.simMotors motorS.index).map (fun m => m.setSMotor motorS) ∧
    getFullMotor (editMotor s motorS) motorS.index = Except.ok motorS ∧
    (∀ j : Nat, j ≠ motorS.index →
      StdMap.find (editMotor s motorS).simMotors j = StdMap.find s.simMotors j) ∧
    StdMap.keys (editMotor s motorS).simMotors = StdMap.keys s.simMotors ∧
    (editMotor s motorS).mimicmotors = s.mimicmotors ∧
    (editMotor s motorS).simMotorsReload = s.simMotorsReload ∧
    (editMotor s motorS).next_motor_id = s.next_motor_id := by
  cases hf : StdMap.find s.simMotors motorS.index with
  | none => exact absurd h ((StdMap.find_eq_none_iff _ _).mp hf)
  | some m =>
    have he : editMotor s motorS = { s with
        simMotors := (StdMap.update s.simMotors motorS.index (fun m => m.setSMotor motorS)) } := by
      unfold editMotor
      rw [hf]
    have hfind : StdMap.find (editMotor s motorS).simMotors motorS.index
        = some (m.setSMotor motorS) := by
      rw [he]
      dsimp only
      rw [StdMap.find_update, hf]
      simp
    refine ⟨by rw [hfind]; rfl, ?_, ?_, editMotor_keys s motorS, editMotor_mimicmotors s motorS,
      ?_, editMotor_next s motorS⟩
    · unfold getFullMotor
      rw [hfind]
      rfl
    · intro j hj
      rw [he]
      dsimp only
      rw [StdMap.find_update]
      simp [hj]
    · rw [he]

/-- Witness of C18: the record of motor 2 is replaced by one named M1. -/
theorem editMotor_replaces_by_id_witness :
    motorM1at2.index ∈ StdMap.keys twoMotors.simMotors ∧
    (StdMap.find (editMotor twoMotors motorM1at2).simMotors motorM1at2.index
      = (StdMap.find twoMotors.simMotors motorM1at2.index).map
          (fun m => m.setSMotor motorM1at2) ∧
    getFullMotor (editMotor twoMotors motorM1at2) motorM1at2.index = Except.ok motorM1at2 ∧
    (∀ j : Nat, j ≠ motorM1at2.index →
      StdMap.find (editMotor twoMotors motorM1at2).simMotors j
        = StdMap.find twoMotors.simMotors j) ∧
    StdMap.keys (editMotor twoMotors motorM1at2).simMotors = StdMap.keys twoMotors.simMotors ∧
    (editMotor twoMotors motorM1at2).mimicmotors = twoMotors.mimicmotors ∧
    (editMotor twoMotors motorM1at2).simMotorsReload = twoMotors.simMotorsReload ∧
    (editMotor twoMotors motorM1at2).next_motor_id = twoMotors.next_motor_id) :=
  ⟨by decide, editMotor_replaces_by_id twoMotors motorM1at2 (by decide)⟩

/-- C19: setMotorValue and moveMotor are equivalent.  For every registry, id
and value they produce the same registry; the motor stored under the id has
received setControlValue(value) and no other motor is touched, and when the id
is unknown the registry is unchanged. -/
theorem setMotorValue_same_as_moveMotor (s : MotorManager) (id : Nat) (value : sReal) :
    setMotorValue s id value = moveMotor s id value ∧
    (∀ k : Nat, StdMap.find (setMotorValue s id value).simMotors k
      = if k = id then (StdMap.find s.simMotors k).map
            (fun m => m.call (MotorCall.setControlValue value))
          else StdMap.find s.simMotors k) ∧
    (StdMap.find s.simMotors id = none → setMotorValue s id value = s) := by
  refine ⟨rfl, ?_, ?_⟩
  · intro k
    unfold setMotorValue
    cases hf : StdMap.find s.simMotors id with
    | none =>
      by_cases hk : k = id
      · simp [hk, hf]
      · simp [hk]
    | some m =>
      dsimp only
      rw [StdMap.find_update]
  · intro hf
    unfold setMotorValue
    rw [hf]

theorem receive_nil (m : SimMotor) : m.receive [] = m := by
  simp [SimMotor.receive]

theorem receive_receive (m : SimMotor) (a b : List MotorCall) :
    (m.receive a).receive b = m.receive (a ++ b) := by
  simp [SimMotor.receive]

theorem call_eq_receive (m : SimMotor) (c : MotorCall) : m.call c = m.receive [c] := rfl

theorem callsTo_append (a b : List (Nat × MotorCall)) (k : Nat) :
    callsTo (a ++ b) k = callsTo a k ++ callsTo b k := by
  simp [callsTo]

theorem findByName_update (motors : List (Nat × SimMotor)) (p : Nat) (f : SimMotor → SimMotor)
    (hf : ∀ m : SimMotor, (f m).getName = m.getName) (name : String) :
    (findByName (StdMap.update motors p f) name).map Prod.fst
      = (findByName motors name).map Prod.fst := by
  induction motors with
  | nil => rfl
  | cons e rest ih =>
    obtain ⟨k0, v0⟩ := e
    rw [StdMap.update_cons]
    unfold findByName at ih ⊢
    by_cases hn : v0.getName = name
    · by_cases hk : k0 = p
      · simp [List.find?_cons, hk, hf, hn]
      · simp [List.find?_cons, hk, hn]
    · by_cases hk : k0 = p
      · simp only [List.find?_cons, hk, if_true, hf, hn, decide_False]
        exact ih
      · simp only [List.find?_cons, hk, if_false, hn, decide_False]
        exact ih

theorem mimicCall_congr (motors1 motors : List (Nat × SimMotor))
    (h : ∀ name : String,
      (findByName motors1 name).map Prod.fst = (findByName motors name).map Prod.fst)
    (it : Nat × String) : mimicCall motors1 it = mimicCall motors it := by
  have h1 : ∀ ms : List (Nat × SimMotor), mimicCall ms it
      = ((findByName ms it.2).map Prod.fst).map (fun k => (k, MotorCall.addMimic it.1)) := by
    intro ms
    unfold mimicCall
    cases findByName ms it.2 <;> rfl
  rw [h1, h1, h it.2]

theorem connectMimicsStep_spec (motors : List (Nat × SimMotor)) (it : Nat × String)
    (r : List (Nat × SimMotor) × List (Nat × MotorCall))
    (h : connectMimicsStep motors it = some r) :
    r.2 = (mimicCall motors it).toList ∧
    (∀ k : Nat, StdMap.find r.1 k
      = (StdMap.find motors k).map (fun m => m.receive (callsTo r.2 k))) ∧
    (∀ name : String,
      (findByName r.1 name).map Prod.fst = (findByName motors name).map Prod.fst) := by
  unfold connectMimicsStep at h
  cases hp : findByName motors it.2 with
  | none =>
    simp only [hp, Option.some.injEq] at h
    rw [← h]
    refine ⟨by simp [mimicCall, hp], ?_, fun _ => rfl⟩
    intro k
    simp [callsTo, receive_nil]
  | some parentmotor =>
    cases hc : StdMap.find motors it.1 with
    | none => simp [hp, hc] at h
    | some child =>
      simp only [hp, hc, Option.some.injEq] at h
      rw [← h]
      dsimp only
      refine ⟨by simp [mimicCall, hp], ?_, ?_⟩
      · intro k
        rw [StdMap.find_update]
        by_cases hk : k = parentmotor.1
        · simp [hk, callsTo, call_eq_receive]
        · have hk2 : ¬ parentmotor.1 = k := fun hc2 => hk hc2.symm
          simp [hk, hk2, callsTo, receive_nil]
      · intro name
        exact findByName_update motors parentmotor.1
          (fun m => m.call (MotorCall.addMimic it.1)) (fun m => rfl) name

theorem connectMimicsLoop_spec (pending : List (Nat × String))
    (motors : List (Nat × SimMotor))
    (r : List (Nat × SimMotor) × List (Nat × MotorCall))
    (h : connectMimicsLoop pending motors = some r) :
    r.2 = pending.filterMap (mimicCall motors) ∧
    (∀ k : Nat, StdMap.find r.1 k
      = (StdMap.find motors k).map (fun m => m.receive (callsTo r.2 k))) := by
  induction pending generalizing motors r with
  | nil =>
    simp only [connectMimicsLoop, Option.some.injEq] at h
    rw [← h]
    refine ⟨rfl, ?_⟩
    intro k
    simp [callsTo, receive_nil]
  | cons it rest ih =>
    unfold connectMimicsLoop at h
    cases h1 : connectMimicsStep motors it with
    | none => simp [h1] at h
    | some r1 =>
      cases h2 : connectMimicsLoop rest r1.1 with
      | none => simp [h1, h2] at h
      | some r2 =>
        simp only [h1, h2, Option.some.injEq] at h
        rw [← h]
        obtain ⟨hs1, hs2, hs3⟩ := connectMimicsStep_spec motors it r1 h1
        obtain ⟨hl1, hl2⟩ := ih r1.1 r2 h2
        dsimp only
        constructor
        · rw [hs1, hl1, List.filterMap_cons]
          have hcongr : List.filterMap (mimicCall r1.1) rest
              = List.filterMap (mimicCall motors) rest := by
            congr 1
            funext it2
            exact mimicCall_congr r1.1 motors hs3 it2
          rw [hcongr]
          cases mimicCall motors it <;> rfl
        · intro k
          rw [hl2, hs2, callsTo_append]
          cases StdMap.find motors k with
          | none => rfl
          | some m => simp [receive_receive]

theorem findByName_none_of_no_name (motors : List (Nat × SimMotor))
    (hord : StdMap.Ordered motors) (name : String)
    (h : ∀ (k : Nat) (m : SimMotor), StdMap.find motors k = some m → m.getName ≠ name) :
    findByName motors name = none := by
  unfold findByName
  apply List.find?_eq_none.mpr
  intro e he
  have hfind : StdMap.find motors e.1 = some e.2 := StdMap.find_of_mem motors hord e.1 e.2 he
  simpa using h e.1 e.2 hfind

theorem findByName_some_of_name (motors : List (Nat × SimMotor))
    (hord : StdMap.Ordered motors) (name : String) (k0 : Nat) (m0 : SimMotor)
    (hk0 : StdMap.find motors k0 = some m0) (hn0 : m0.getName = name) :
    ∃ e : Nat × SimMotor, findByName motors name = some e ∧
      StdMap.find motors e.1 = some e.2 ∧ e.2.getName = name ∧
      ∀ (k : Nat) (m : SimMotor), StdMap.find motors k = some m → m.getName = name →
        e.1 ≤ k := by
  cases hf : findByName motors name with
  | none =>
    unfold findByName at hf
    have hnone := List.find?_eq_none.mp hf (k0, m0) (StdMap.mem_of_find _ _ _ hk0)
    simp [hn0] at hnone
  | some e =>
    unfold findByName at hf
    have hmem : e ∈ motors := List.mem_of_find?_eq_some hf
    have hp := List.find?_some hf
    refine ⟨e, rfl, StdMap.find_of_mem motors hord e.1 e.2 hmem, by simpa using hp, ?_⟩
    intro k m hkm hname
    exact find?_first _ motors hord e hf (k, m) (StdMap.mem_of_find _ _ _ hkm)
      (by simp [hname])

/-- C15: in a reachable registry connectMimics returns normally.  The entries
(childId, parentName) of the mimic-parent map are in strictly ascending childId
order and each child is a key of the actuator map; going through them in that
order, connectMimics issues for each entry what the entry asks for.  For an
entry whose parent name no motor of the actuator map has, that is nothing, and
getSimMotorByName returns NULL; for an entry whose parent name some motor has,
it is exactly one addMimic(child) on the motor that getSimMotorByName returns,
which is stored in the actuator map, has the parent name, and has the smallest
id among the motors with that name.  Every motor has received the calls
addressed to it and no other; the mimic-parent map and the key set of the
actuator map are unchanged. -/
theorem connectMimics_resolves_pairs (s : MotorManager) (h : Reachable s) :
    ∃ (t : MotorManager) (issued : List (Nat × MotorCall)),
      connectMimics s = some t ∧ connectMimicsIssued s = some issued ∧
      issued = s.mimicmotors.filterMap (mimicCall s.simMotors) ∧
      (∀ it : Nat × String,
        (∀ (k : Nat) (m : SimMotor), StdMap.find s.simMotors k = some m → m.getName ≠ it.2) →
        mimicCall s.simMotors it = none ∧ getSimMotorByName s it.2 = none) ∧
      (∀ it : Nat × String,
        (∃ (k : Nat) (m : SimMotor), StdMap.find s.simMotors k = some m ∧ m.getName = it.2) →
        ∃ (p : Nat) (parent : SimMotor),
          mimicCall s.simMotors it = some (p, MotorCall.addMimic it.1) ∧
          getSimMotorByName s it.2 = some parent ∧
          StdMap.find s.simMotors p = some parent ∧ parent.getName = it.2 ∧
          ∀ (k : Nat) (m : SimMotor), StdMap.find s.simMotors k = some m →
            m.getName = it.2 → p ≤ k) ∧
      (StdMap.keys s.mimicmotors).Pairwise (fun a b => a < b) ∧
      (∀ it ∈ s.mimicmotors, it.1 ∈ StdMap.keys s.simMotors) ∧
      (∀ k : Nat, StdMap.find t.simMotors k
        = (StdMap.find s.simMotors k).map (fun m => m.receive (callsTo issued k))) ∧
      t.mimicmotors = s.mimicmotors ∧
      StdMap.keys t.simMotors = StdMap.keys s.simMotors := by
  have hinv := reachable_invariant s h
  obtain ⟨r, hr⟩ := connectMimicsLoop_defined s.mimicmotors s.simMotors hinv.mimic
  obtain ⟨h1, h2⟩ := connectMimicsLoop_spec s.mimicmotors s.simMotors r hr
  refine ⟨{ s with simMotors := r.1 }, r.2, by simp [connectMimics, hr],
    by simp [connectMimicsIssued, hr], h1, ?_, ?_, hinv.mimicOrdered, ?_, h2, rfl,
    connectMimicsLoop_keys _ _ r hr⟩
  · intro it hno
    have hf := findByName_none_of_no_name s.simMotors hinv.ordered it.2 hno
    exact ⟨by simp [mimicCall, hf], by simp [getSimMotorByName, hf]⟩
  · rintro it ⟨k0, m0, hk0, hn0⟩
    obtain ⟨e, hf, hfind, hname, hmin⟩ :=
      findByName_some_of_name s.simMotors hinv.ordered it.2 k0 m0 hk0 hn0
    exact ⟨e.1, e.2, by simp [mimicCall, hf], by simp [getSimMotorByName, hf], hfind, hname,
      hmin⟩
  · intro it hit
    exact hinv.mimic it.1 (List.mem_map.mpr ⟨it, hit, rfl⟩)

/-- Witness of C15 at the registry holding motors 1 and 2, where 2 mimics 1. -/
theorem connectMimics_resolves_pairs_witness :
    Reachable twoMotors ∧
    ∃ (t : MotorManager) (issued : List (Nat × MotorCall)),
      connectMimics twoMotors = some t ∧ connectMimicsIssued twoMotors = some issued ∧
      issued = twoMotors.mimicmotors.filterMap (mimicCall twoMotors.simMotors) ∧
      (∀ it : Nat × String,
        (∀ (k : Nat) (m : SimMotor), StdMap.find twoMotors.simMotors k = some m →
          m.getName ≠ it.2) →
        mimicCall twoMotors.simMotors it = none ∧ getSimMotorByName twoMotors it.2 = none) ∧
      (∀ it : Nat × String,
        (∃ (k : Nat) (m : SimMotor), StdMap.find twoMotors.simMotors k = some m ∧
          m.getName = it.2) →
        ∃ (p : Nat) (parent : SimMotor),
          mimicCall twoMotors.simMotors it = some (p, MotorCall.addMimic it.1) ∧
          getSimMotorByName twoMotors it.2 = some parent ∧
          StdMap.find twoMotors.simMotors p = some parent ∧ parent.getName = it.2 ∧
          ∀ (k : Nat) (m : SimMotor), StdMap.find twoMotors.simMotors k = some m →
            m.getName = it.2 → p ≤ k) ∧
      (StdMap.keys twoMotors.mimicmotors).Pairwise (fun a b => a < b) ∧
      (∀ it ∈ twoMotors.mimicmotors, it.1 ∈ StdMap.keys twoMotors.simMotors) ∧
      (∀ k : Nat, StdMap.find t.simMotors k
        = (StdMap.find twoMotors.simMotors k).map (fun m => m.receive (callsTo issued k))) ∧
      t.mimicmotors = twoMotors.mimicmotors ∧
      StdMap.keys t.simMotors = StdMap.keys twoMotors.simMotors :=
  ⟨Reachable.addMotor _ _ _ (Reachable.addMotor _ _ _ Reachable.fresh),
    connectMimics_resolves_pairs twoMotors
      (Reachable.addMotor _ _ _ (Reachable.addMotor _ _ _ Reachable.fresh))⟩

theorem connectMimics_twoMotors_issued :
    connectMimicsIssued twoMotors = some [(1, MotorCall.addMimic 2)] := by
  decide

theorem lookup_append_other (c : ConfigMap) (k1 k2 : String) (item : ConfigItem)
    (h : k1 ≠ k2) : List.lookup k2 (c ++ [(k1, item)]) = List.lookup k2 c := by
  induction c with
  | nil =>
    have h2 : (k2 == k1) = false := by simpa using fun hc : k2 = k1 => h hc.symm
    simp [List.lookup, h2]
  | cons e rest ih =>
    obtain ⟨k0, v0⟩ := e
    cases hk : (k2 == k0) with
    | true => simp [List.lookup, hk]
    | false =>
      simp only [List.cons_append, List.lookup, hk]
      exact ih

theorem subscript_after_other (c : ConfigMap) (k1 k2 : String) (h : k1 ≠ k2) :
    (ConfigMap.subscript (ConfigMap.subscript c k1).2 k2).1 = (ConfigMap.subscript c k2).1 := by
  have hl : List.lookup k2 (ConfigMap.subscript c k1).2 = List.lookup k2 c := by
    unfold ConfigMap.subscript
    cases List.lookup k1 c with
    | none => exact lookup_append_other c k1 k2 ConfigItem.empty h
    | some item => rfl
  unfold ConfigMap.subscript at hl ⊢
  rw [hl]
  cases List.lookup k2 c <;> rfl

theorem setApproximation_setMimic (setter : String → List sReal → MotorCall)
    (hs : ∀ (kind : String) (v : List sReal), (setter kind v).isSetMimic = false)
    (kindKey coeffKey : String) (config : ConfigMap) (newMotor : SimMotor) :
    (setApproximation setter kindKey coeffKey config newMotor).2.calls.filter
        MotorCall.isSetMimic
      = newMotor.calls.filter MotorCall.isSetMimic := by
  have hloop : ∀ (kind : String) (xs : List sReal) (acc : List sReal × SimMotor),
      (xs.foldl (fun (acc : List sReal × SimMotor) (x : sReal) =>
          (acc.1 ++ [x], acc.2.call (setter kind (acc.1 ++ [x])))) acc).2.calls.filter
          MotorCall.isSetMimic
        = acc.2.calls.filter MotorCall.isSetMimic := by
    intro kind xs
    induction xs with
    | nil => intro acc; rfl
    | cons x rest ih =>
      intro acc
      rw [List.foldl_cons, ih]
      simp [SimMotor.call, List.filter_append, hs]
  unfold setApproximation
  split
  · exact hloop _ _ _
  · rfl

theorem addMotor_new_motor (s : MotorManager) (motorS : MotorData) (reload : Bool) :
    ∃ m : SimMotor,
      (addMotor s motorS reload).mgr.simMotors = StdMap.assign s.simMotors s.next_motor_id m ∧
      m.calls.filter MotorCall.isSetMimic
        = (setMotorMimics s.next_motor_id motorS.config s.mimicmotors
            ((SimMotor.new { motorS with index := s.next_motor_id } motorS.jointIndex).setSMotor
              { motorS with index := s.next_motor_id })).2.2.calls.filter
            MotorCall.isSetMimic :=
  ⟨_, rfl, by
    rw [setApproximation_setMimic MotorCall.setCurrentApproximation (fun _ _ => rfl),
      setApproximation_setMimic MotorCall.setMaxSpeedApproximation (fun _ _ => rfl),
      setApproximation_setMimic MotorCall.setMaxEffortApproximation (fun _ _ => rfl)]⟩

theorem addMotor_new_entry (s : MotorManager) (motorS : MotorData) (reload : Bool) :
    ∃ m : SimMotor,
      StdMap.find (addMotor s motorS reload).mgr.simMotors (addMotor s motorS reload).ret
        = some m ∧
      m.calls.filter MotorCall.isSetMimic
        = (setMotorMimics s.next_motor_id motorS.config s.mimicmotors
            ((SimMotor.new { motorS with index := s.next_motor_id } motorS.jointIndex).setSMotor
              { motorS with index := s.next_motor_id })).2.2.calls.filter
            MotorCall.isSetMimic := by
  obtain ⟨m, hm, hcalls⟩ := addMotor_new_motor s motorS reload
  refine ⟨m, ?_, hcalls⟩
  have hret : (addMotor s motorS reload).ret = s.next_motor_id := rfl
  rw [hm, hret, StdMap.find_assign]
  simp

/-- C20: addMotor records the mimic configuration exactly when it is given.
If the config of the record holds the key mimic_motor, then after addMotor
returned id i the mimic-parent map maps i to that parent name and the new
motor has received setMimic exactly once, with the values of mimic_multiplier
and mimic_offset; if the config has no key mimic_motor, the mimic-parent map is
unchanged and the new motor has received no setMimic. -/
theorem addMotor_records_mimic (s : MotorManager) (motorS : MotorData) (reload : Bool) :
    (∀ parent : ConfigItem, List.lookup "mimic_motor" motorS.config = some parent →
      StdMap.find (addMotor s motorS reload).mgr.mimicmotors (addMotor s motorS reload).ret
        = some parent.asString ∧
      ∃ m : SimMotor,
        StdMap.find (addMotor s motorS reload).mgr.simMotors (addMotor s motorS reload).ret
          = some m ∧
        m.calls.filter MotorCall.isSetMimic
          = [MotorCall.setMimic
              (ConfigMap.subscript motorS.config "mimic_multiplier").1.asReal
              (ConfigMap.subscript motorS.config "mimic_offset").1.asReal]) ∧
    (List.lookup "mimic_motor" motorS.config = none →
      (addMotor s motorS reload).mgr.mimicmotors = s.mimicmotors ∧
      ∃ m : SimMotor,
        StdMap.find (addMotor s motorS reload).mgr.simMotors (addMotor s motorS reload).ret
          = some m ∧
        m.calls.filter MotorCall.isSetMimic = []) := by
  obtain ⟨m, hm, hcalls⟩ := addMotor_new_entry s motorS reload
  have hmimic : (addMotor s motorS reload).mgr.mimicmotors
      = (setMotorMimics s.next_motor_id motorS.config s.mimicmotors
          ((SimMotor.new { motorS with index := s.next_motor_id } motorS.jointIndex).setSMotor
            { motorS with index := s.next_motor_id })).2.1 := rfl
  have hret : (addMotor s motorS reload).ret = s.next_motor_id := rfl
  constructor
  · intro parent hparent
    have hhas : ConfigMap.has motorS.config "mimic_motor" = true := by
      simp [ConfigMap.has, hparent]
    have hsub : ConfigMap.subscript motorS.config "mimic_motor" = (parent, motorS.config) := by
      simp [ConfigMap.subscript, hparent]
    constructor
    · rw [hmimic, hret]
      unfold setMotorMimics
      rw [if_pos hhas]
      dsimp only
      rw [StdMap.find_assign, hsub]
      simp
    · refine ⟨m, hm, ?_⟩
      rw [hcalls]
      unfold setMotorMimics
      rw [if_pos hhas]
      dsimp only
      rw [hsub]
      dsimp only
      rw [subscript_after_other motorS.config "mimic_multiplier" "mimic_offset" (by decide)]
      simp [SimMotor.call, SimMotor.setSMotor, SimMotor.new, MotorCall.isSetMimic]
  · intro hnone
    have hhas : ¬ ConfigMap.has motorS.config "mimic_motor" = true := by
      simp [ConfigMap.has, hnone]
    constructor
    · rw [hmimic]
      unfold setMotorMimics
      rw [if_neg hhas]
    · refine ⟨m, hm, ?_⟩
      rw [hcalls]
      unfold setMotorMimics
      rw [if_neg hhas]
      rfl

/-- C21, the code at a failing input: for a record whose config names the three
approximation functions and gives each an empty coefficient sequence, the motor
that addMotor creates has received no call at all, so that no approximation is
installed, where the claim has each function installed with the empty
sequence.  With the coefficients 1 and 2 the max-effort function is installed
with the sequence 1, 2. -/
theorem addMotor_empty_coefficients_install_nothing :
    (∃ m : SimMotor,
      StdMap.find (addMotor fresh motorEmptyCoefficients false).mgr.simMotors 1 = some m ∧
      m.calls = [] ∧ m.installedMaxEffort = none ∧ m.installedMaxSpeed = none ∧
      m.installedCurrent = none) ∧
    (∃ m : SimMotor,
      StdMap.find (addMotor fresh motorTwoCoefficients false).mgr.simMotors 1 = some m ∧
      m.installedMaxEffort = some ("polynom", [1, 2])) :=
  ⟨⟨_, rfl, rfl, rfl, rfl, rfl⟩, ⟨_, rfl, rfl⟩⟩

end MotorManager

namespace NodeManager

/-- C22: getDataBrokerNames(id, group, name) returns true and sets group to
"mars_sim" and name to "Nodes/" followed by the frame name registered for id
when the link id manager knows id, and returns false and leaves both strings
as they are when it does not. -/
theorem getDataBrokerNames_of_node (linkIDManager : IDManager) (id : Nat)
    (groupName dataName : String) :
    (linkIDManager.isKnown id = true →
      getDataBrokerNames linkIDManager id groupName dataName
        = (true, "mars_sim", "Nodes/" ++ linkIDManager.getName id)) ∧
    (linkIDManager.isKnown id = false →
      getDataBrokerNames linkIDManager id groupName dataName
        = (false, groupName, dataName)) := by
  constructor
  · intro h
    simp [getDataBrokerNames, h]
  · intro h
    simp [getDataBrokerNames, h]

/-- C23: when createObject returns null, addGlobalCollisionObject returns false
and calls none of setPosition, setRotation and updateTransform (it has no throw
statement), and addNode returns the index of the record, as it does with every
backend, in particular one whose createObject succeeds. -/
theorem createObject_failure_is_not_fatal {V Q : Type} (backend : Backend V Q)
    (nodeS : NodeData V Q) (reload loadGraphics : Bool)
    (h : backend.createObject (collisionConfig backend nodeS) = false) :
    addGlobalCollisionObject backend nodeS = (false, []) ∧
    (addNode backend nodeS reload loadGraphics).ret = nodeS.index ∧
    (nodeS.noPhysical = false →
      (addNode backend nodeS reload loadGraphics).collision = some (false, [])) ∧
    ∀ backend2 : Backend V Q, (addNode backend2 nodeS reload loadGraphics).ret = nodeS.index := by
  have hg : addGlobalCollisionObject backend nodeS = (false, []) := by
    simp [addGlobalCollisionObject, h]
  have hret : ∀ b : Backend V Q, (addNode b nodeS reload loadGraphics).ret = nodeS.index := by
    intro b
    unfold addNode
    split <;> rfl
  refine ⟨hg, hret backend, ?_, hret⟩
  intro hp
  simp [addNode, hp, hg]

/-- Witness of C23: the plane node with a backend whose createObject returns
null. -/
theorem createObject_failure_is_not_fatal_witness :
    failingBackend.createObject (collisionConfig failingBackend planeNode) = false ∧
    (addGlobalCollisionObject failingBackend planeNode = (false, []) ∧
    (addNode failingBackend planeNode false true).ret = planeNode.index ∧
    (planeNode.noPhysical = false →
      (addNode failingBackend planeNode false true).collision = some (false, [])) ∧
    ∀ backend2 : Backend Int Int, (addNode backend2 planeNode false true).ret
      = planeNode.index) :=
  ⟨rfl, createObject_failure_is_not_fatal failingBackend planeNode false true rfl⟩

theorem lookup_map_assign (config : ConfigMap) (key : String) (item : ConfigItem)
    (h : (List.lookup key config).isSome = true) :
    List.lookup key (config.map (fun e => if e.1 = key then (key, item) else e))
      = some item := by
  induction config with
  | nil => simp at h
  | cons e rest ih =>
    obtain ⟨k0, v0⟩ := e
    by_cases hk : k0 = key
    · have hhead : (if (k0, v0).1 = key then (key, item) else (k0, v0)) = (key, item) := by
        simp [hk]
      rw [List.map_cons, hhead]
      simp [List.lookup]
    · have hb : (key == k0) = false := by simpa using fun hc : key = k0 => hk hc.symm
      have hhead : (if (k0, v0).1 = key then (key, item) else (k0, v0)) = (k0, v0) := by
        simp [hk]
      simp only [List.lookup, hb] at h
      rw [List.map_cons, hhead]
      simp only [List.lookup, hb]
      exact ih h

theorem lookup_append_new (config : ConfigMap) (key : String) (item : ConfigItem)
    (h : List.lookup key config = none) :
    List.lookup key (config ++ [(key, item)]) = some item := by
  induction config with
  | nil => simp [List.lookup]
  | cons e rest ih =>
    obtain ⟨k0, v0⟩ := e
    cases hb : (key == k0) with
    | true => simp [List.lookup, hb] at h
    | false =>
      simp only [List.lookup, hb] at h
      simp only [List.cons_append, List.lookup, hb]
      exact ih h

theorem lookup_assign_self (config : ConfigMap) (key : String) (item : ConfigItem) :
    List.lookup key (ConfigMap.assign config key item) = some item := by
  unfold ConfigMap.assign ConfigMap.has
  cases hl : List.lookup key config with
  | some old =>
    simp only [Option.isSome_some, if_true]
    exact lookup_map_assign config key item (by simp [hl])
  | none =>
    simp only [Option.isSome_none, Bool.false_eq_true, if_false]
    exact lookup_append_new config key item hl

theorem collisionConfig_type {V Q : Type} (backend : Backend V Q) (nodeData : NodeData V Q) :
    (ConfigMap.subscript (collisionConfig backend nodeData) "type").1
      = (ConfigMap.subscript (backend.toConfigMap nodeData) "physicmode").1 := by
  unfold collisionConfig
  dsimp only
  unfold ConfigMap.subscript
  rw [lookup_assign_self]

/-- C24: for a collision object that createObject returned, when the type of
its configuration (the physicmode of the node, which line 1947 assigns to the
key type) is "plane", addGlobalCollisionObject calls
setPosition(node position), setRotation(node rotation) and updateTransform on
it, in that order and each once; for every other type it calls none of them.
It returns true in both cases. -/
theorem plane_object_is_transformed {V Q : Type} (backend : Backend V Q)
    (nodeData : NodeData V Q)
    (h : backend.createObject (collisionConfig backend nodeData) = true) :
    (ConfigMap.subscript (collisionConfig backend nodeData) "type").1
      = (ConfigMap.subscript (backend.toConfigMap nodeData) "physicmode").1 ∧
    ((ConfigMap.subscript (collisionConfig backend nodeData) "type").1.asString = "plane" →
      addGlobalCollisionObject backend nodeData
        = (true, [ObjectCall.setPosition nodeData.pos, ObjectCall.setRotation nodeData.rot,
            ObjectCall.updateTransform])) ∧
    ((ConfigMap.subscript (collisionConfig backend nodeData) "type").1.asString ≠ "plane" →
      addGlobalCollisionObject backend nodeData = (true, [])) := by
  refine ⟨collisionConfig_type backend nodeData, ?_, ?_⟩
  · intro ht
    simp [addGlobalCollisionObject, h, ht]
  · intro ht
    simp [addGlobalCollisionObject, h, ht]

/-- Witness of C24: the plane node with a backend whose createObject
succeeds. -/
theorem plane_object_is_transformed_witness :
    workingBackend.createObject (collisionConfig workingBackend planeNode) = true ∧
    ((ConfigMap.subscript (collisionConfig workingBackend planeNode) "type").1
      = (ConfigMap.subscript (workingBackend.toConfigMap planeNode) "physicmode").1 ∧
    ((ConfigMap.subscript (collisionConfig workingBackend planeNode) "type").1.asString
        = "plane" →
      addGlobalCollisionObject workingBackend planeNode
        = (true, [ObjectCall.setPosition planeNode.pos, ObjectCall.setRotation planeNode.rot,
            ObjectCall.updateTransform])) ∧
    ((ConfigMap.subscript (collisionConfig workingBackend planeNode) "type").1.asString
        ≠ "plane" →
      addGlobalCollisionObject workingBackend planeNode = (true, []))) :=
  ⟨rfl, plane_object_is_transformed workingBackend planeNode rfl⟩

end NodeManager

namespace CollisionManager

/-- C25: handler lookup does not depend on the order of the two names.  For all
names x, y and every handler H, after addCollisionHandler(x, y, H) a contact
recorded between y and x, or between x and y, resolves to H; on every table the
pairs (x, y) and (y, x) resolve to the same entry. -/
theorem handler_lookup_is_order_independent {H : Type}
    (collisionHandlers : List ((String × String) × H)) (x y : String) (handler : H) :
    resolveHandler (addCollisionHandler collisionHandlers x y handler) y x = some handler ∧
    resolveHandler (addCollisionHandler collisionHandlers x y handler) x y = some handler ∧
    resolveHandler collisionHandlers x y = resolveHandler collisionHandlers y x := by
  have hk : pairKey y x = pairKey x y := by
    simp [pairKey, min_comm, max_comm]
  refine ⟨?_, ?_, ?_⟩
  · simp [resolveHandler, addCollisionHandler, hk]
  · simp [resolveHandler, addCollisionHandler]
  · simp [resolveHandler, hk]

end CollisionManager

namespace MotorManager

/-- C26, the code at failing inputs: addMotor of a record with a mimic_motor key
writes the mimic-parent map after its last unlock, and connectMimics reads the
mimic-parent map and indexes the actuator map without taking the mutex, where
the claim has every access under the mutex; removeMotor and clearAllMotors
access both maps under it. -/
theorem maps_accessed_without_mutex :
    guarded false (events fresh (Operation.addMotor motorM2 false)) = false ∧
    guarded false (events twoMotors Operation.connectMimics) = false ∧
    guarded false (events twoMotors Operation.reloadMotors) = false ∧
    guarded false (events twoMotors (Operation.removeMotor 2)) = true ∧
    guarded false (events twoMotors (Operation.clearAllMotors false)) = true :=
  ⟨by decide, by decide, by decide, by decide, by decide⟩

theorem lockRun_append (a b : List LockEvent) (held : Bool) :
    lockRun held (a ++ b) = (lockRun held a).bind (fun h => lockRun h b) := by
  induction a generalizing held with
  | nil => rfl
  | cons e rest ih =>
    cases e with
    | lock =>
      cases held
      · simpa [lockRun] using ih true
      · simp [lockRun]
    | unlock =>
      cases held
      · simp [lockRun]
      · simpa [lockRun] using ih false
    | simMotors => simpa [lockRun] using ih held
    | mimicmotors => simpa [lockRun] using ih held

theorem lockRun_replicate (n : Nat) (held : Bool) :
    lockRun held (List.replicate n LockEvent.simMotors) = some held := by
  induction n with
  | zero => rfl
  | succ k ih => simpa [List.replicate_succ, lockRun] using ih

theorem lockRun_scanEvents (motors : List (Nat × SimMotor)) (name : String) (held : Bool) :
    lockRun held (scanEvents motors name) = some held := by
  induction motors with
  | nil => rfl
  | cons e rest ih =>
    by_cases h : e.2.getName = name
    · simp [scanEvents, lockRun, h]
    · simpa [scanEvents, lockRun, h] using ih

theorem lockRun_reload_loop (pool : List MotorData) :
    lockRun true (pool.flatMap (fun _ => [LockEvent.unlock, LockEvent.lock])) = some true := by
  induction pool with
  | nil => rfl
  | cons d rest ih =>
    simp only [List.flatMap_cons, List.cons_append, List.nil_append, lockRun]
    exact ih

theorem lockRun_getSimMotorByName (s : MotorManager) (name : String) :
    lockRun false (getSimMotorByNameEvents s name) = some false := by
  simp [getSimMotorByNameEvents, lockRun_append, lockRun, lockRun_scanEvents]

theorem lockRun_connectMimics_loop (s : MotorManager) (pending : List (Nat × String)) :
    lockRun false (pending.flatMap (fun it =>
      [LockEvent.mimicmotors] ++ getSimMotorByNameEvents s it.2
        ++ (if (findByName s.simMotors it.2).isSome then [LockEvent.simMotors] else [])))
      = some false := by
  induction pending with
  | nil => rfl
  | cons it rest ih =>
    have h1 : lockRun false ([LockEvent.mimicmotors] ++ getSimMotorByNameEvents s it.2)
        = some false := by
      rw [lockRun_append]
      simp only [lockRun, Option.some_bind]
      exact lockRun_getSimMotorByName s it.2
    have h2 : lockRun false
        (if (findByName s.simMotors it.2).isSome then [LockEvent.simMotors] else [])
        = some false := by
      cases (findByName s.simMotors it.2).isSome <;> rfl
    rw [List.flatMap_cons, lockRun_append, lockRun_append, h1]
    simp only [Option.some_bind]
    rw [h2]
    simp only [Option.some_bind]
    exact ih

theorem lockRun_connectMimics (s : MotorManager) :
    lockRun false (connectMimicsEvents s) = some false :=
  lockRun_connectMimics_loop s s.mimicmotors

/-- C27: the mutex is balanced and never taken by its holder.  For every
registry and every call of a public member function, going through the events
of the call from a free mutex never meets a lock while the mutex is held nor
an unlock while it is free, and leaves the mutex free at the end; this covers
the throwing path of getFullMotor and every length of the reload pool.  In
reloadMotors the mutex is free when connectMimics, whose getSimMotorByName
takes it, is called. -/
theorem mutex_is_balanced (s : MotorManager) (op : Operation) :
    lockRun false (events s op) = some false ∧
    lockRun false ([LockEvent.lock]
      ++ s.simMotorsReload.flatMap (fun _ => [LockEvent.unlock, LockEvent.lock])
      ++ [LockEvent.unlock]) = some false := by
  constructor
  · cases op with
    | addMotor motorS reload =>
      cases reload <;> cases h : ConfigMap.has motorS.config "mimic_motor" <;>
        simp [events, h, lockRun]
    | getListMotors => simp [events, lockRun_append, lockRun, lockRun_replicate]
    | removeMotor index =>
      cases h : (StdMap.find s.simMotors index).isSome <;> simp [events, h, lockRun]
    | getSimMotorByName name => exact lockRun_getSimMotorByName s name
    | getID name => exact lockRun_getSimMotorByName s name
    | clearAllMotors clear_all => simp [events, lockRun_append, lockRun, lockRun_replicate]
    | reloadMotors =>
      simp [events, lockRun_append, lockRun, lockRun_reload_loop, lockRun_connectMimics]
    | updateMotors calc_ms => simp [events, lockRun_append, lockRun, lockRun_replicate]
    | connectMimics => exact lockRun_connectMimics s
    | edit id key value =>
      cases h : (StdMap.find s.simMotors id).isSome <;> simp [events, h, lockRun]
    | _ => rfl
  · simp [lockRun_append, lockRun, lockRun_reload_loop]

end MotorManager

namespace NodeManager

theorem mem_extendPool (processed linked pool : List Nat) (x : Nat) :
    x ∈ extendPool processed linked pool ↔ x ∈ pool ∨ (x ∈ linked ∧ x ∉ processed) := by
  induction linked generalizing pool with
  | nil => simp [extendPool]
  | cons a rest ih =>
    unfold extendPool
    by_cases h1 : a ∈ processed
    · rw [if_pos h1, ih]
      constructor
      · rintro (h | ⟨h, h2⟩)
        · exact Or.inl h
        · exact Or.inr ⟨List.mem_cons_of_mem _ h, h2⟩
      · rintro (h | ⟨h, h2⟩)
        · exact Or.inl h
        · rcases List.mem_cons.mp h with h3 | h3
          · exact absurd (h3 ▸ h1) h2
          · exact Or.inr ⟨h3, h2⟩
    · rw [if_neg h1]
      by_cases h2 : a ∈ pool
      · rw [if_pos h2, ih]
        constructor
        · rintro (h | ⟨h, h3⟩)
          · exact Or.inl h
          · exact Or.inr ⟨List.mem_cons_of_mem _ h, h3⟩
        · rintro (h | ⟨h, h3⟩)
          · exact Or.inl h
          · rcases List.mem_cons.mp h with h4 | h4
            · exact Or.inl (h4 ▸ h2)
            · exact Or.inr ⟨h4, h3⟩
      · rw [if_neg h2, ih]
        constructor
        · rintro (h | ⟨h, h3⟩)
          · rcases List.mem_cons.mp h with h4 | h4
            · exact Or.inr ⟨h4 ▸ List.mem_cons_self _ _, h4 ▸ h1⟩
            · exact Or.inl h4
          · exact Or.inr ⟨List.mem_cons_of_mem _ h, h3⟩
        · rintro (h | ⟨h, h3⟩)
          · exact Or.inl (List.mem_cons_of_mem _ h)
          · rcases List.mem_cons.mp h with h4 | h4
            · exact Or.inl (h4 ▸ List.mem_cons_self _ _)
            · exact Or.inr ⟨h4, h3⟩

theorem nodup_extendPool (processed linked pool : List Nat) (h : pool.Nodup) :
    (extendPool processed linked pool).Nodup := by
  induction linked generalizing pool with
  | nil => exact h
  | cons a rest ih =>
    unfold extendPool
    by_cases h1 : a ∈ processed
    · rw [if_pos h1]
      exact ih pool h
    · rw [if_neg h1]
      by_cases h2 : a ∈ pool
      · rw [if_pos h2]
        exact ih pool h
      · rw [if_neg h2]
        exact ih (a :: pool) (List.nodup_cons.mpr ⟨h2, h⟩)

theorem length_le_card_of_nodup (l : List Nat) (U : Finset Nat) (hn : l.Nodup)
    (hs : ∀ x ∈ l, x ∈ U) : l.length ≤ U.card := by
  rw [← List.toFinset_card_of_nodup hn]
  exact Finset.card_le_card (fun x hx => hs x (List.mem_toFinset.mp hx))

theorem moveLoop_nil {V : Type} [Add V] [Zero V] (translation : V) (move_all : Bool)
    (fuel : Nat) (processed : List Nat) (objects : Objects V) :
    moveLoop translation move_all fuel [] processed objects
      = some { objects := objects, moved := [] } := by
  cases fuel <;> rfl

theorem moveLoop_spec {V : Type} [Add V] [Zero V] (links : Nat → List Nat) (U : Finset Nat)
    (P : Nat → Prop) (translation : V)
    (hU : ∀ a ∈ U, ∀ b ∈ links a, b ∈ U) (hP : ∀ a, P a → ∀ b ∈ links a, P b) :
    ∀ (fuel : Nat) (pool processed : List Nat) (objects : Objects V),
      (∀ a, (objects a).linkedFrames = links a) → pool.Nodup → processed.Nodup →
      (∀ x ∈ pool, x ∉ processed) → (∀ x ∈ pool, x ∈ U ∧ P x) → (∀ x ∈ processed, x ∈ U) →
      U.card ≤ processed.length + fuel →
      ∃ r, moveLoop translation true fuel pool processed objects = some r ∧
        r.moved.Nodup ∧ (∀ x ∈ r.moved, x ∉ processed ∧ P x) ∧ (∀ x ∈ pool, x ∈ r.moved) ∧
        (∀ y ∈ r.moved, ∀ x ∈ links y, x ∈ r.moved ∨ x ∈ processed) ∧
        (∀ a, r.objects a
          = if a ∈ r.moved then (objects a).translated translation else objects a) := by
  intro fuel
  induction fuel with
  | zero =>
    intro pool processed objects hl hpn hprn hdisj hpU hprU hcard
    cases pool with
    | nil =>
      exact ⟨_, moveLoop_nil translation true 0 processed objects, List.nodup_nil,
        by simp, by simp, by simp, by simp⟩
    | cons cur rest =>
      exfalso
      have hcur := hpU cur (List.mem_cons_self _ _)
      have hnot := hdisj cur (List.mem_cons_self _ _)
      have hlen := length_le_card_of_nodup (cur :: processed) U
        (List.nodup_cons.mpr ⟨hnot, hprn⟩)
        (fun x hx => by
          rcases List.mem_cons.mp hx with h | h
          · rw [h]; exact hcur.1
          · exact hprU x h)
      simp only [List.length_cons] at hlen
      omega
  | succ fuel ih =>
    intro pool processed objects hl hpn hprn hdisj hpU hprU hcard
    cases pool with
    | nil =>
      exact ⟨_, moveLoop_nil translation true (fuel + 1) processed objects, List.nodup_nil,
        by simp, by simp, by simp, by simp⟩
    | cons cur rest =>
      have hcur := hpU cur (List.mem_cons_self _ _)
      have hnot := hdisj cur (List.mem_cons_self _ _)
      have hrest := List.nodup_cons.mp hpn
      have hl1 : ∀ a, ((moveObject objects cur translation) a).linkedFrames = links a := by
        intro a
        unfold moveObject
        by_cases h : a = cur
        · rw [if_pos h]
          exact hl a
        · rw [if_neg h]
          exact hl a
      have hmemPool : ∀ x, x ∈ extendPool (cur :: processed) (links cur) rest
          ↔ x ∈ rest ∨ (x ∈ links cur ∧ x ∉ cur :: processed) :=
        fun x => mem_extendPool _ _ _ x
      obtain ⟨r, hr, hnd, hmoved, hpool, hclosed, hobj⟩ :=
        ih (extendPool (cur :: processed) (links cur) rest) (cur :: processed)
          (moveObject objects cur translation) hl1
          (nodup_extendPool _ _ _ hrest.2)
          (List.nodup_cons.mpr ⟨hnot, hprn⟩)
          (fun x hx => by
            rcases (hmemPool x).mp hx with h | h
            · intro hc
              rcases List.mem_cons.mp hc with h2 | h2
              · exact hrest.1 (h2 ▸ h)
              · exact hdisj x (List.mem_cons_of_mem _ h) h2
            · exact h.2)
          (fun x hx => by
            rcases (hmemPool x).mp hx with h | h
            · exact hpU x (List.mem_cons_of_mem _ h)
            · exact ⟨hU cur hcur.1 x h.1, hP cur hcur.2 x h.1⟩)
          (fun x hx => by
            rcases List.mem_cons.mp hx with h | h
            · rw [h]; exact hcur.1
            · exact hprU x h)
          (by simp only [List.length_cons]; omega)
      have hcurNot : cur ∉ r.moved := fun hc => (hmoved cur hc).1 (List.mem_cons_self _ _)
      refine ⟨{ objects := r.objects, moved := cur :: r.moved }, ?_, ?_, ?_, ?_, ?_, ?_⟩
      · have hlinks : ((moveObject objects cur translation) cur).linkedFrames = links cur :=
          hl1 cur
        simp only [moveLoop, Bool.not_true, Bool.false_eq_true, if_false, hlinks, hr]
      · exact List.nodup_cons.mpr ⟨hcurNot, hnd⟩
      · intro x hx
        rcases List.mem_cons.mp hx with h | h
        · rw [h]; exact ⟨hnot, hcur.2⟩
        · exact ⟨fun hc => (hmoved x h).1 (List.mem_cons_of_mem _ hc), (hmoved x h).2⟩
      · intro x hx
        rcases List.mem_cons.mp hx with h | h
        · rw [h]; exact List.mem_cons_self _ _
        · exact List.mem_cons_of_mem _ (hpool x ((hmemPool x).mpr (Or.inl h)))
      · intro y hy x hx
        have key : x ∈ r.moved ∨ x ∈ cur :: processed := by
          rcases List.mem_cons.mp hy with h | h
          · rw [h] at hx
            by_cases hc : x ∈ cur :: processed
            · exact Or.inr hc
            · exact Or.inl (hpool x ((hmemPool x).mpr (Or.inr ⟨hx, hc⟩)))
          · exact hclosed y h x hx
        rcases key with h | h
        · exact Or.inl (List.mem_cons_of_mem _ h)
        · rcases List.mem_cons.mp h with h2 | h2
          · exact Or.inl (h2 ▸ List.mem_cons_self _ _)
          · exact Or.inr h2
      · intro a
        rw [hobj a]
        by_cases ha : a = cur
        · subst ha
          simp [hcurNot, moveObject]
        · have hne : ¬ a = cur := ha
          simp [List.mem_cons, hne, moveObject]

theorem moveDynamicObjects_all {V : Type} [Add V] [Zero V] (objects : Objects V)
    (start : Nat) (translation : V) (objs : List Nat) (hstart : start ∈ objs)
    (hclosed : ∀ a ∈ objs, ∀ b ∈ (objects a).linkedFrames, b ∈ objs)
    (fuel : Nat) (hfuel : objs.length ≤ fuel) :
    ∃ r, moveDynamicObjects fuel objects start translation true = some r ∧
      r.moved.Nodup ∧ (∀ x, x ∈ r.moved ↔ ReachableFrom objects start x) ∧
      (∀ a, r.objects a
        = if a ∈ r.moved then (objects a).translated translation else objects a) := by
  have hcard : objs.toFinset.card ≤ ([] : List Nat).length + fuel := by
    have := List.toFinset_card_le objs
    simp only [List.length_nil]
    omega
  obtain ⟨r, hr, hnd, hmoved, hpool, hcl, hobj⟩ :=
    moveLoop_spec (fun a => (objects a).linkedFrames) objs.toFinset
      (ReachableFrom objects start) translation
      (fun a ha b hb => List.mem_toFinset.mpr (hclosed a (List.mem_toFinset.mp ha) b hb))
      (fun a ha b hb => Relation.ReflTransGen.tail ha hb)
      fuel [start] [] objects (fun _ => rfl) (List.nodup_singleton start) List.nodup_nil
      (fun x _ => List.not_mem_nil x)
      (fun x hx => by
        rw [List.mem_singleton.mp hx]
        exact ⟨List.mem_toFinset.mpr hstart, Relation.ReflTransGen.refl⟩)
      (fun x hx => absurd hx (List.not_mem_nil x)) hcard
  refine ⟨r, hr, hnd, ?_, hobj⟩
  intro x
  constructor
  · intro hx
    exact (hmoved x hx).2
  · intro hx
    induction hx with
    | refl => exact hpool start (List.mem_singleton.mpr rfl)
    | tail _ hbc ih =>
      rcases hcl _ ih _ hbc with h | h
      · exact h
      · exact absurd h (List.not_mem_nil _)

theorem moveDynamicObjects_single {V : Type} [Add V] [Zero V] (objects : Objects V)
    (start : Nat) (translation : V) (fuel : Nat) (hfuel : 1 ≤ fuel) :
    moveDynamicObjects fuel objects start translation false
      = some { objects := moveObject objects start translation, moved := [start] } := by
  cases fuel with
  | zero => omega
  | succ k => rfl

/-- C28: moveDynamicObjects terminates on every finite graph of linked dynamic
objects, cycles and self-links included.  For a list of objects that holds the
start object and the linked objects of each of its members, as many passes as
the list is long are enough: with move_all true the loop ends after passes
that move pairwise distinct objects, all reachable from the start object, so
that their number is at most the number of reachable objects; with move_all
false the loop body runs exactly once. -/
theorem moveDynamicObjects_terminates {V : Type} [Add V] [Zero V] (objects : Objects V)
    (start : Nat) (translation : V) (objs : List Nat) (hstart : start ∈ objs)
    (hclosed : ∀ a ∈ objs, ∀ b ∈ (objects a).linkedFrames, b ∈ objs)
    (fuel : Nat) (hfuel : objs.length ≤ fuel) :
    (∃ r, moveDynamicObjects fuel objects start translation true = some r ∧
      r.moved.Nodup ∧ (∀ x ∈ r.moved, ReachableFrom objects start x) ∧
      ∀ R : Finset Nat, (∀ x, ReachableFrom objects start x → x ∈ R) →
        r.moved.length ≤ R.card) ∧
    (∃ r, moveDynamicObjects fuel objects start translation false = some r ∧
      r.moved.length = 1) := by
  constructor
  · obtain ⟨r, hr, hnd, hmem, _⟩ :=
      moveDynamicObjects_all objects start translation objs hstart hclosed fuel hfuel
    refine ⟨r, hr, hnd, fun x hx => (hmem x).mp hx, ?_⟩
    intro R hR
    exact length_le_card_of_nodup r.moved R hnd (fun x hx => hR x ((hmem x).mp hx))
  · have h1 : 1 ≤ fuel := by
      have := List.length_pos_of_mem hstart
      omega
    exact ⟨_, moveDynamicObjects_single objects start translation fuel h1, rfl⟩

/-- Witness of C28: the four objects, from object 0, which lies on a cycle and
is linked to itself. -/
theorem moveDynamicObjects_terminates_witness :
    (0 ∈ [0, 1, 2] ∧ (∀ a ∈ [0, 1, 2], ∀ b ∈ (fourObjects a).linkedFrames, b ∈ [0, 1, 2]) ∧
      [0, 1, 2].length ≤ 3) ∧
    ((∃ r, moveDynamicObjects 3 fourObjects 0 (100 : Int) true = some r ∧
      r.moved.Nodup ∧ (∀ x ∈ r.moved, ReachableFrom fourObjects 0 x) ∧
      ∀ R : Finset Nat, (∀ x, ReachableFrom fourObjects 0 x → x ∈ R) →
        r.moved.length ≤ R.card) ∧
    (∃ r, moveDynamicObjects 3 fourObjects 0 (100 : Int) false = some r ∧
      r.moved.length = 1)) :=
  ⟨⟨by decide, by decide, by decide⟩,
    moveDynamicObjects_terminates fourObjects 0 100 [0, 1, 2] (by decide) (by decide) 3
      (by decide)⟩

/-- C29: on a finite graph, moveDynamicObjects with move_all true moves exactly
the objects reachable from the start object through getLinkedFrames, each in
one pass only: a reachable object has its position replaced by its old position
plus the translation and both velocities set to zero, an unreachable object is
as before; with move_all false the start object alone is translated and
zeroed, whatever it is linked to. -/
theorem moveDynamicObjects_moves_reachable {V : Type} [Add V] [Zero V] (objects : Objects V)
    (start : Nat) (translation : V) (objs : List Nat) (hstart : start ∈ objs)
    (hclosed : ∀ a ∈ objs, ∀ b ∈ (objects a).linkedFrames, b ∈ objs)
    (fuel : Nat) (hfuel : objs.length ≤ fuel) :
    (∃ r, moveDynamicObjects fuel objects start translation true = some r ∧
      r.moved.Nodup ∧ (∀ x, x ∈ r.moved ↔ ReachableFrom objects start x) ∧
      (∀ a, ReachableFrom objects start a →
        (r.objects a).position = (objects a).position + translation ∧
        (r.objects a).linearVelocity = 0 ∧ (r.objects a).angularVelocity = 0 ∧
        (r.objects a).linkedFrames = (objects a).linkedFrames) ∧
      (∀ a, ¬ ReachableFrom objects start a → r.objects a = objects a)) ∧
    (∃ r, moveDynamicObjects fuel objects start translation false = some r ∧
      r.moved = [start] ∧
      (r.objects start).position = (objects start).position + translation ∧
      (r.objects start).linearVelocity = 0 ∧ (r.objects start).angularVelocity = 0 ∧
      ∀ a, a ≠ start → r.objects a = objects a) := by
  constructor
  · obtain ⟨r, hr, hnd, hmem, hobj⟩ :=
      moveDynamicObjects_all objects start translation objs hstart hclosed fuel hfuel
    refine ⟨r, hr, hnd, hmem, ?_, ?_⟩
    · intro a ha
      rw [hobj a, if_pos ((hmem a).mpr ha)]
      exact ⟨rfl, rfl, rfl, rfl⟩
    · intro a ha
      rw [hobj a, if_neg (fun hc => ha ((hmem a).mp hc))]
  · have h1 : 1 ≤ fuel := by
      have := List.length_pos_of_mem hstart
      omega
    refine ⟨_, moveDynamicObjects_single objects start translation fuel h1, rfl, ?_, ?_, ?_, ?_⟩
    · simp [moveObject, DynamicObject.translated]
    · simp [moveObject, DynamicObject.translated]
    · simp [moveObject, DynamicObject.translated]
    · intro a ha
      simp [moveObject, ha]

/-- Witness of C29: the four objects, from object 0; object 3 is not
reachable. -/
theorem moveDynamicObjects_moves_reachable_witness :
    (0 ∈ [0, 1, 2] ∧ (∀ a ∈ [0, 1, 2], ∀ b ∈ (fourObjects a).linkedFrames, b ∈ [0, 1, 2]) ∧
      [0, 1, 2].length ≤ 3) ∧
    ((∃ r, moveDynamicObjects 3 fourObjects 0 (100 : Int) true = some r ∧
      r.moved.Nodup ∧ (∀ x, x ∈ r.moved ↔ ReachableFrom fourObjects 0 x) ∧
      (∀ a, ReachableFrom fourObjects 0 a →
        (r.objects a).position = (fourObjects a).position + 100 ∧
        (r.objects a).linearVelocity = 0 ∧ (r.objects a).angularVelocity = 0 ∧
        (r.objects a).linkedFrames = (fourObjects a).linkedFrames) ∧
      (∀ a, ¬ ReachableFrom fourObjects 0 a → r.objects a = fourObjects a)) ∧
    (∃ r, moveDynamicObjects 3 fourObjects 0 (100 : Int) false = some r ∧
      r.moved = [0] ∧
      (r.objects 0).position = (fourObjects 0).position + 100 ∧
      (r.objects 0).linearVelocity = 0 ∧ (r.objects 0).angularVelocity = 0 ∧
      ∀ a, a ≠ 0 → r.objects a = fourObjects a)) :=
  ⟨⟨by decide, by decide, by decide⟩,
    moveDynamicObjects_moves_reachable fourObjects 0 100 [0, 1, 2] (by decide) (by decide) 3
      (by decide)⟩

end NodeManager

end MarsCore
